import Mathlib

/-!
Shallow embedding of the create-image async-task pipeline of this repository:
the tRPC mutation imageRouter.createImage (transactional batch creator plus
background dispatcher) and the collaborators it calls into.

The database is modelled as explicit lists of rows with a fresh-id counter;
every fallible external effect (a DB write inside the transaction, the
per-URL storage-key resolver, the async-caller construction, each dispatched
remote call, each status update) is driven by an outcome oracle `Env`, so the
handler is a pure function of (oracle, user, input, initial database).
-/

/-- Status of an AsyncTask row: the router creates tasks as Pending and writes
Error; Success is written by the remote side (external collaborator). -/
inductive AsyncTaskStatus where
  | Pending
  | Success
  | Error
deriving DecidableEq, Repr

/-- Error kind used by the dispatcher (AsyncTaskErrorType.ServerError). -/
inductive AsyncTaskErrorType where
  | ServerError
deriving DecidableEq, Repr

/-- Structured task error: kind plus message (new AsyncTaskError(type, msg)). -/
structure AsyncTaskError where
  kind : AsyncTaskErrorType
  message : String
deriving DecidableEq, Repr

/-- Task type used by the router (AsyncTaskType.ImageGeneration). -/
inductive AsyncTaskType where
  | ImageGeneration
deriving DecidableEq, Repr

/-- Generation parameters, after validation by createImageInputSchema.
The seed field is nullable and optional in the schema, so it is modelled as
an outer Option (key present or absent) around an inner Option (null or a
number); the outer some models the JS test (seed in params) being true. -/
structure ImageParams where
  prompt : String
  imageUrls : Option (List String) := none
  width : Option Int := none
  height : Option Int := none
  seed : Option (Option Int) := none
  steps : Option Int := none
  cfg : Option Int := none
deriving DecidableEq, Repr

/-- Input of the createImage mutation (createImageInputSchema). -/
structure CreateImageInput where
  generationTopicId : String
  provider : String
  model : String
  imageNum : Nat
  params : ImageParams
deriving DecidableEq, Repr

/-- Row of the generationBatches table as written by the router. -/
structure GenerationBatchRow where
  id : Nat
  userId : String
  generationTopicId : String
  provider : String
  model : String
  prompt : String
  width : Option Int
  height : Option Int
  config : ImageParams
deriving DecidableEq, Repr

/-- Row of the generations table as written by the router. -/
structure GenerationRow where
  id : Nat
  userId : String
  generationBatchId : Nat
  seed : Option Int
  asyncTaskId : Option Nat
deriving DecidableEq, Repr

/-- Row of the asyncTasks table as written by the router. -/
structure AsyncTaskRow where
  id : Nat
  userId : String
  status : AsyncTaskStatus
  error : Option AsyncTaskError
  type : AsyncTaskType
deriving DecidableEq, Repr

/-- The relational store: the three tables the pipeline touches plus the
fresh-id allocator used for inserted rows. -/
structure Database where
  batches : List GenerationBatchRow
  generations : List GenerationRow
  asyncTasks : List AsyncTaskRow
  nextId : Nat
deriving DecidableEq, Repr

/-- Well-formedness of the store: every existing row id is below the
allocator, so freshly allocated ids never collide with existing rows. -/
def WellFormed (db : Database) : Prop :=
  (∀ b ∈ db.batches, b.id < db.nextId) ∧
    (∀ g ∈ db.generations, g.id < db.nextId) ∧
      (∀ t ∈ db.asyncTasks, t.id < db.nextId)

instance : DecidablePred WellFormed := fun db => by
  unfold WellFormed; infer_instance

/-- The payload of one dispatched remote create-image call
(asyncCaller.image.createImage input). -/
structure RemoteCall where
  taskId : Nat
  generationId : Nat
  provider : String
  model : String
  params : ImageParams
deriving DecidableEq, Repr

/-- Ghost record of one applied task-status write: the task id, the status the
row held before the write, and the status written. -/
structure StatusWrite where
  taskId : Nat
  oldStatus : AsyncTaskStatus
  newStatus : AsyncTaskStatus
deriving DecidableEq, Repr

/-- Outcome oracle for every fallible external effect of one handler run.
writeOk k decides whether the k-th DB write inside the transaction succeeds;
resolveKey is fileService.getKeyFromFullUrl (throwing modelled as error);
callerOk decides whether createAsyncCaller succeeds, callerErrMsg the thrown
message when it is an Error value (none models a non-Error throw);
callRejects tid is none when the remote call for task tid resolves and
some msg when it rejects, msg being the rejection message field (none when
the rejection carries no message field); updateOk tid decides whether the
status update issued for task tid succeeds. -/
structure Env where
  writeOk : Nat → Bool
  resolveKey : String → Except String String
  callerOk : Bool
  callerErrMsg : Option String
  callRejects : Nat → Option (Option String)
  updateOk : Nat → Bool

/-- Modelled from the spec: generateUniqueSeeds (imported by the router from
the utils number module, whose source is not in this snapshot) generates
imageNum unique seeds up front; modelled as a fixed injective enumeration of
the requested length. -/
def generateUniqueSeeds (n : Nat) : List Int :=
  (List.range n).map Int.ofNat

/-- JavaScript truthy-or on a possibly missing message: e.message falls back
to the default when the field is absent or the empty string. -/
def jsOrString (m : Option String) (d : String) : String :=
  match m with
  | some s => if s = "" then d else s
  | none => d

/-- The per-URL conversion loop: params.imageUrls.map(getKeyFromFullUrl),
where the first throwing URL aborts the whole mapping. -/
def resolveAll (resolveKey : String → Except String String) :
    List String → Except String (List String)
  | [] => .ok []
  | u :: rest =>
    match resolveKey u with
    | .ok k =>
      match resolveAll resolveKey rest with
      | .ok ks => .ok (k :: ks)
      | .error e => .error e
    | .error e => .error e

/-- The configForDatabase computation: when params.imageUrls is a nonempty
array, rewrite every URL to a storage key; if any rewrite throws, keep the
original unmodified params. -/
def configForDatabase (resolveKey : String → Except String String)
    (params : ImageParams) : ImageParams :=
  match params.imageUrls with
  | some urls =>
    if urls.isEmpty then params
    else
      match resolveAll resolveKey urls with
      | .ok keys => { params with imageUrls := some keys }
      | .error _ => params
  | none => params

/-- Seed list built inside the transaction: seed key present in params gives
imageNum fresh unique seeds, otherwise a list of imageNum nulls. -/
def seedsForBatch (params : ImageParams) (imageNum : Nat) : List (Option Int) :=
  if params.seed.isSome then (generateUniqueSeeds imageNum).map some
  else (List.range imageNum).map (fun _ => none)

/-- The newGenerations array built inside the transaction: imageNum rows,
row index i getting id idNext + i, the owning batch id, and seeds[i]. -/
def newGenerationRows (userId : String) (batchId : Nat) :
    Nat → List (Option Int) → Nat → List GenerationRow
  | 0, _, _ => []
  | k + 1, seeds, idNext =>
    { id := idNext, userId := userId, generationBatchId := batchId,
      seed := seeds.headD none, asyncTaskId := none } ::
      newGenerationRows userId batchId k seeds.tail (idNext + 1)

/-- Pending task row as inserted inside the transaction. -/
def mkTask (userId : String) (tid : Nat) : AsyncTaskRow :=
  { id := tid, userId := userId, status := .Pending, error := none,
    type := .ImageGeneration }

/-- The tx.update(generations).set(asyncTaskId).where(id = gid and userId)
statement. -/
def setTask (userId : String) (gid tid : Nat) (rows : List GenerationRow) :
    List GenerationRow :=
  rows.map fun row =>
    if row.id = gid ∧ row.userId = userId then { row with asyncTaskId := some tid }
    else row

/-- The per-generation loop inside the transaction: for each created
generation insert one Pending asyncTask and write its id back onto the
generation row; the DB-write oracle is consulted for each of the two writes
in order. Returns the final draft state, the next write index, and the
(generation, asyncTaskId) pairs in creation order. -/
def attachTasks (env : Env) (userId : String) :
    List GenerationRow → Nat → Database →
      Except String (Database × Nat × List (GenerationRow × Nat))
  | [], opIdx, db => .ok (db, opIdx, [])
  | g :: rest, opIdx, db =>
    if env.writeOk opIdx then
      let tid := db.nextId
      let db1 : Database :=
        { db with asyncTasks := db.asyncTasks ++ [mkTask userId tid],
                  nextId := db.nextId + 1 }
      if env.writeOk (opIdx + 1) then
        let db2 : Database := { db1 with generations := setTask userId g.id tid db1.generations }
        match attachTasks env userId rest (opIdx + 2) db2 with
        | .ok (db3, opEnd, pairs) => .ok (db3, opEnd, (g, tid) :: pairs)
        | .error e => .error e
      else .error "generation update failed"
    else .error "asyncTask insert failed"

/-- The transaction body of createImage: insert the batch row, insert the
imageNum generation rows, then attach one Pending task to each generation.
Any failed write aborts the body with an error. -/
def createImageTx (env : Env) (userId : String) (input : CreateImageInput)
    (config : ImageParams) (db : Database) :
    Except String (Database × GenerationBatchRow × List (GenerationRow × Nat)) :=
  if env.writeOk 0 then
    let batch : GenerationBatchRow :=
      { id := db.nextId, userId := userId,
        generationTopicId := input.generationTopicId,
        provider := input.provider, model := input.model,
        prompt := input.params.prompt, width := input.params.width,
        height := input.params.height, config := config }
    let db0 : Database :=
      { db with batches := db.batches ++ [batch], nextId := db.nextId + 1 }
    if env.writeOk 1 then
      let seeds := seedsForBatch input.params input.imageNum
      let newGens := newGenerationRows userId batch.id input.imageNum seeds db0.nextId
      let db1 : Database :=
        { db0 with generations := db0.generations ++ newGens,
                   nextId := db0.nextId + input.imageNum }
      match attachTasks env userId newGens 2 db1 with
      | .ok (db2, _, pairs) => .ok (db2, batch, pairs)
      | .error e => .error e
    else .error "generations insert failed"
  else .error "batch insert failed"

/-- Lookup of the task row targeted by a status update, keyed by task id and
owning user id (the single-row update key of the store collaborator). -/
def findTask (tid : Nat) (userId : String) : List AsyncTaskRow → Option AsyncTaskRow
  | [] => none
  | t :: rest => if t.id = tid ∧ t.userId = userId then some t else findTask tid userId rest

/-- Modelled from the spec: AsyncTaskModel.update (the database model module
for async tasks is not in this snapshot); per the spec it is a single-row
update keyed by (task id, owning user id), setting status and error, and a
no-op when the task no longer exists. The ghost StatusWrite list records the
applied transition. -/
def asyncTaskModelUpdate (userId : String) (tid : Nat) (status : AsyncTaskStatus)
    (err : Option AsyncTaskError) (db : Database) : Database × List StatusWrite :=
  match findTask tid userId db.asyncTasks with
  | none => (db, [])
  | some t =>
    ({ db with
        asyncTasks := db.asyncTasks.map fun r =>
          if r.id = tid ∧ r.userId = userId then { r with status := status, error := err }
          else r },
      [{ taskId := tid, oldStatus := t.status, newStatus := status }])

/-- Settlement handling for one dispatched call: a rejection triggers one
status update to Error with the structured server error when that update
succeeds, and only a log entry otherwise; a resolved call changes nothing
here (the remote side owns the Success transition). -/
def dispatchStep (env : Env) (userId : String) (tid : Nat) (db : Database) :
    Database × List StatusWrite :=
  match env.callRejects tid with
  | some msg =>
    if env.updateOk tid then
      asyncTaskModelUpdate userId tid .Error
        (some { kind := .ServerError, message := jsOrString msg "Unknown error" }) db
    else (db, [])
  | none => (db, [])

/-- The per-task background dispatch loop: for each (generation, task) pair,
in creation order, issue one remote createImage call carrying the task id,
generation id, provider, model, and the original params, then handle the
settlement of that call. -/
def dispatchTasks (env : Env) (userId provider model : String) (params : ImageParams) :
    List (GenerationRow × Nat) → Database → Database × List RemoteCall × List StatusWrite
  | [], db => (db, [], [])
  | (g, tid) :: rest, db =>
    let call : RemoteCall :=
      { taskId := tid, generationId := g.id, provider := provider, model := model,
        params := params }
    let step := dispatchStep env userId tid db
    let recur := dispatchTasks env userId provider model params rest step.1
    (recur.1, call :: recur.2.1, step.2 ++ recur.2.2)

/-- One best-effort update of the dispatch-setup-failure fallback. -/
def fallbackStep (env : Env) (userId msg : String) (tid : Nat) (db : Database) :
    Database × List StatusWrite :=
  if env.updateOk tid then
    asyncTaskModelUpdate userId tid .Error
      (some { kind := .ServerError, message := msg }) db
  else (db, [])

/-- The dispatch-setup failure fallback: mark every task of the batch Error in
a best-effort Promise.allSettled batch update; individual update failures are
only logged. -/
def markAllTasksError (env : Env) (userId : String) (msg : String) :
    List (GenerationRow × Nat) → Database → Database × List StatusWrite
  | [], db => (db, [])
  | (_, tid) :: rest, db =>
    let step := fallbackStep env userId msg tid db
    let recur := markAllTasksError env userId msg rest step.1
    (recur.1, step.2 ++ recur.2)

/-- Value returned to the caller on success:
{ success: true, data: { batch, generations } }. -/
structure CreateImageOutput where
  success : Bool
  batch : GenerationBatchRow
  generations : List GenerationRow
deriving DecidableEq, Repr

/-- Complete observable outcome of one handler run: the final store, the
remote calls issued (in issue order), the ghost log of applied task-status
writes, and the value or error returned to the caller. -/
structure RunResult where
  db : Database
  calls : List RemoteCall
  writes : List StatusWrite
  result : Except String CreateImageOutput
deriving Repr

/-- The createImage mutation handler. Step 0: rewrite imageUrls for the batch
config (best effort). Step 1: run the transaction; a failed body rolls the
store back to the initial state and propagates the error to the caller.
Step 2: build the async caller and fire one background call per task, or on
caller-construction failure mark every task Error; either way nothing thrown
by background work reaches the caller, and the handler returns success with
the batch and the generation rows captured at insert time. -/
def createImage (env : Env) (userId : String) (input : CreateImageInput)
    (db : Database) : RunResult :=
  let config := configForDatabase env.resolveKey input.params
  match createImageTx env userId input config db with
  | .error e => { db := db, calls := [], writes := [], result := .error e }
  | .ok (db1, batch, pairs) =>
    let dispatched : Database × List RemoteCall × List StatusWrite :=
      if env.callerOk then
        dispatchTasks env userId input.provider input.model input.params pairs db1
      else
        let msg :=
          match env.callerErrMsg with
          | some m => m
          | none => "Failed to process async tasks"
        let fallback := markAllTasksError env userId msg pairs db1
        (fallback.1, [], fallback.2)
    { db := dispatched.1, calls := dispatched.2.1, writes := dispatched.2.2,
      result := .ok
        { success := true, batch := batch, generations := pairs.map (·.1) } }

/-! Helper abbreviations used to state closed forms of the transaction and of
the dispatch step. -/

/-- Pairing of created generations with the consecutively allocated task ids,
in creation order. -/
def mkPairs : List GenerationRow → Nat → List (GenerationRow × Nat)
  | [], _ => []
  | g :: rest, t0 => (g, t0) :: mkPairs rest (t0 + 1)

/-- The k Pending task rows inserted for one batch, ids consecutive from t0. -/
def taskRows (userId : String) : Nat → Nat → List AsyncTaskRow
  | 0, _ => []
  | k + 1, t0 => mkTask userId t0 :: taskRows userId k (t0 + 1)

/-- The generation rows as they stand at commit time: row i carries seed i and
references task t0 + i. -/
def linkedGenerationRows (userId : String) (batchId : Nat) :
    Nat → List (Option Int) → Nat → Nat → List GenerationRow
  | 0, _, _, _ => []
  | k + 1, seeds, idNext, t0 =>
    { id := idNext, userId := userId, generationBatchId := batchId,
      seed := seeds.headD none, asyncTaskId := some t0 } ::
      linkedGenerationRows userId batchId k seeds.tail (idNext + 1) (t0 + 1)

/-- Left-to-right composition of the per-generation task-reference updates. -/
def setTasksAll (userId : String) :
    List (GenerationRow × Nat) → List GenerationRow → List GenerationRow
  | [], rows => rows
  | (g, tid) :: rest, rows => setTasksAll userId rest (setTask userId g.id tid rows)

/-- Per-row form of the composed task-reference updates. -/
def applyPairsRow (userId : String) :
    List (GenerationRow × Nat) → GenerationRow → GenerationRow
  | [], row => row
  | (g, tid) :: rest, row =>
    applyPairsRow userId rest
      (if row.id = g.id ∧ row.userId = userId then { row with asyncTaskId := some tid }
       else row)

/-- The batch row inserted by the transaction when the allocator stands at n. -/
def mkBatchRow (userId : String) (input : CreateImageInput) (config : ImageParams)
    (n : Nat) : GenerationBatchRow :=
  { id := n, userId := userId, generationTopicId := input.generationTopicId,
    provider := input.provider, model := input.model,
    prompt := input.params.prompt, width := input.params.width,
    height := input.params.height, config := config }

/-- The generation rows created by the transaction (pre task attachment). -/
def txNewGens (userId : String) (input : CreateImageInput) (n : Nat) :
    List GenerationRow :=
  newGenerationRows userId n input.imageNum
    (seedsForBatch input.params input.imageNum) (n + 1)

/-- The (generation, task id) pairs returned by the transaction. -/
def txPairs (userId : String) (input : CreateImageInput) (n : Nat) :
    List (GenerationRow × Nat) :=
  mkPairs (txNewGens userId input n) (n + 1 + input.imageNum)

/-- The committed store state after a fully successful transaction. -/
def txDb (userId : String) (input : CreateImageInput) (config : ImageParams)
    (db : Database) : Database :=
  { batches := db.batches ++ [mkBatchRow userId input config db.nextId],
    generations := setTasksAll userId (txPairs userId input db.nextId)
      (db.generations ++ txNewGens userId input db.nextId),
    asyncTasks := db.asyncTasks ++
      taskRows userId input.imageNum (db.nextId + 1 + input.imageNum),
    nextId := db.nextId + 1 + 2 * input.imageNum }

/-- Row image of one task-status update. -/
def updRow (userId : String) (tid : Nat) (status : AsyncTaskStatus)
    (err : Option AsyncTaskError) (r : AsyncTaskRow) : AsyncTaskRow :=
  if r.id = tid ∧ r.userId = userId then { r with status := status, error := err }
  else r

/-- Row image of the handling of one dispatched call outcome. -/
def stepRowT (env : Env) (userId : String) (tid : Nat) (r : AsyncTaskRow) :
    AsyncTaskRow :=
  match env.callRejects tid with
  | some msg =>
    if env.updateOk tid then
      updRow userId tid .Error
        (some { kind := .ServerError, message := jsOrString msg "Unknown error" }) r
    else r
  | none => r

/-- Row image of the whole per-task dispatch loop: a task row is rewritten to
Error exactly when it is one of the batch task ids, its own remote call
rejected, and its own status update succeeded. -/
def dispatchRowOutcome (env : Env) (userId : String) (tids : List Nat)
    (r : AsyncTaskRow) : AsyncTaskRow :=
  if r.id ∈ tids then stepRowT env userId r.id r else r

/-- Row image of one best-effort fallback update. -/
def stepRowF (env : Env) (userId : String) (msg : String) (tid : Nat)
    (r : AsyncTaskRow) : AsyncTaskRow :=
  if env.updateOk tid then
    updRow userId tid .Error (some { kind := .ServerError, message := msg }) r
  else r

/-- Row image of the whole fallback loop. -/
def fallbackRowOutcome (env : Env) (userId : String) (msg : String)
    (tids : List Nat) (r : AsyncTaskRow) : AsyncTaskRow :=
  if r.id ∈ tids then stepRowF env userId msg r.id r else r

/-- The generation rows of the committed batch, with their task references. -/
def txLinked (u : String) (input : CreateImageInput) (n : Nat) :
    List GenerationRow :=
  linkedGenerationRows u n input.imageNum
    (seedsForBatch input.params input.imageNum) (n + 1) (n + 1 + input.imageNum)

/-- The task rows of the committed batch. -/
def txTasks (u : String) (input : CreateImageInput) (n : Nat) :
    List AsyncTaskRow :=
  taskRows u input.imageNum (n + 1 + input.imageNum)

/-- Payload of the remote call issued for one (generation, task id) pair. -/
def mkCall (p m : String) (params : ImageParams) (pr : GenerationRow × Nat) :
    RemoteCall :=
  { taskId := pr.2, generationId := (pr.1).id, provider := p, model := m,
    params := params }

/-- The success value returned once the transaction commits. -/
def okOutput (u : String) (input : CreateImageInput) (config : ImageParams)
    (n : Nat) : CreateImageOutput :=
  { success := true, batch := mkBatchRow u input config n,
    generations := (txPairs u input n).map (·.1) }

/-- Task row after the dispatcher has recorded a server error on it. -/
def erroredTask (u : String) (tid : Nat) (message : String) : AsyncTaskRow :=
  { id := tid, userId := u, status := .Error,
    error := some { kind := .ServerError, message := message },
    type := .ImageGeneration }

/-- Empty store used by the concrete witnesses. -/
def dbW : Database :=
  { batches := [], generations := [], asyncTasks := [], nextId := 0 }

/-- Witness oracle: every effect succeeds except the remote call of task 5,
which rejects with message boom. -/
def envW : Env :=
  { writeOk := fun _ => true,
    resolveKey := fun s => .ok (String.append "key-" s),
    callerOk := true, callerErrMsg := none,
    callRejects := fun t => if t = 5 then some (some "boom") else none,
    updateOk := fun _ => true }

/-- Witness oracle whose fourth transactional write fails. -/
def envW2 : Env :=
  { envW with writeOk := fun k => decide (k ≠ 3) }

/-- Witness oracle where the async-caller construction throws an Error value. -/
def envW4 : Env :=
  { envW with callerOk := false, callerErrMsg := some "no caller" }

/-- Witness oracle differing from envW only in the background outcomes. -/
def envW5 : Env :=
  { envW with
    callerOk := false, callerErrMsg := none,
    callRejects := fun _ => some none, updateOk := fun _ => false }

/-- Witness oracle whose storage-key resolver always throws. -/
def envW8 : Env :=
  { envW with resolveKey := fun _ => .error "cannot parse" }

/-- Witness input: three images, seed key present with value null, one URL. -/
def inpW : CreateImageInput :=
  { generationTopicId := "t", provider := "p", model := "m", imageNum := 3,
    params := { prompt := "hi", imageUrls := some ["u1"], seed := some none } }

/-- Witness input without the seed key and without imageUrls. -/
def inpW7 : CreateImageInput :=
  { inpW with params := { prompt := "hi" } }


/-! Structural lemmas about the row-list constructors. -/

theorem newGenerationRows_length (u : String) (b : Nat) :
    ∀ (k : Nat) (seeds : List (Option Int)) (n0 : Nat),
      (newGenerationRows u b k seeds n0).length = k := by
  intro k
  induction k with
  | zero => intro seeds n0; rfl
  | succ k ih => intro seeds n0; simp [newGenerationRows, ih]

theorem newGenerationRows_mem (u : String) (b : Nat) :
    ∀ (k : Nat) (seeds : List (Option Int)) (n0 : Nat),
      ∀ g ∈ newGenerationRows u b k seeds n0,
        g.userId = u ∧ g.generationBatchId = b ∧ g.asyncTaskId = none ∧
          n0 ≤ g.id ∧ g.id < n0 + k := by
  intro k
  induction k with
  | zero => intro seeds n0 g hg; exact absurd hg (by simp [newGenerationRows])
  | succ k ih =>
    intro seeds n0 g hg
    rcases List.mem_cons.mp hg with h | h
    · subst h
      refine ⟨rfl, rfl, rfl, Nat.le_refl _, ?_⟩
      show n0 < n0 + (k + 1)
      omega
    · obtain ⟨h1, h2, h3, h4, h5⟩ := ih seeds.tail (n0 + 1) g h
      exact ⟨h1, h2, h3, by omega, by omega⟩

theorem newGenerationRows_map_seed (u : String) (b : Nat) :
    ∀ (k : Nat) (seeds : List (Option Int)) (n0 : Nat), k ≤ seeds.length →
      (newGenerationRows u b k seeds n0).map (·.seed) = seeds.take k := by
  intro k
  induction k with
  | zero => intro seeds n0 _; simp [newGenerationRows]
  | succ k ih =>
    intro seeds n0 hk
    cases seeds with
    | nil => simp at hk
    | cons s rest =>
      simp only [newGenerationRows, List.map_cons, List.headD_cons, List.tail_cons,
        List.take_succ_cons]
      exact congrArg (s :: ·) (ih rest (n0 + 1) (by simpa using hk))

theorem taskRows_length (u : String) :
    ∀ (k t0 : Nat), (taskRows u k t0).length = k := by
  intro k
  induction k with
  | zero => intro t0; rfl
  | succ k ih => intro t0; simp [taskRows, ih]

theorem taskRows_mem (u : String) :
    ∀ (k t0 : Nat), ∀ t ∈ taskRows u k t0,
      t.userId = u ∧ t.status = .Pending ∧ t.error = none ∧
        t.type = .ImageGeneration ∧ t0 ≤ t.id ∧ t.id < t0 + k := by
  intro k
  induction k with
  | zero => intro t0 t ht; exact absurd ht (by simp [taskRows])
  | succ k ih =>
    intro t0 t ht
    rcases List.mem_cons.mp ht with h | h
    · subst h
      refine ⟨rfl, rfl, rfl, rfl, Nat.le_refl _, ?_⟩
      show t0 < t0 + (k + 1)
      omega
    · obtain ⟨h1, h2, h3, h4, h5, h6⟩ := ih (t0 + 1) t h
      exact ⟨h1, h2, h3, h4, by omega, by omega⟩

theorem taskRows_map_id_nodup (u : String) :
    ∀ (k t0 : Nat), ((taskRows u k t0).map (·.id)).Nodup := by
  intro k
  induction k with
  | zero => intro t0; simp [taskRows]
  | succ k ih =>
    intro t0
    simp only [taskRows, List.map_cons, List.nodup_cons]
    refine ⟨?_, ih (t0 + 1)⟩
    intro hmem
    rcases List.mem_map.mp hmem with ⟨t, ht, hid⟩
    have := (taskRows_mem u k (t0 + 1) t ht).2.2.2.2.1
    simp only [mkTask] at hid
    omega

theorem linkedGenerationRows_length (u : String) (b : Nat) :
    ∀ (k : Nat) (seeds : List (Option Int)) (n0 t0 : Nat),
      (linkedGenerationRows u b k seeds n0 t0).length = k := by
  intro k
  induction k with
  | zero => intro seeds n0 t0; rfl
  | succ k ih => intro seeds n0 t0; simp [linkedGenerationRows, ih]

theorem linkedGenerationRows_mem (u : String) (b : Nat) :
    ∀ (k : Nat) (seeds : List (Option Int)) (n0 t0 : Nat),
      ∀ g ∈ linkedGenerationRows u b k seeds n0 t0,
        g.userId = u ∧ g.generationBatchId = b ∧
          n0 ≤ g.id ∧ g.id < n0 + k ∧
            ∃ j, j < k ∧ g.asyncTaskId = some (t0 + j) ∧ g.id = n0 + j := by
  intro k
  induction k with
  | zero => intro seeds n0 t0 g hg; exact absurd hg (by simp [linkedGenerationRows])
  | succ k ih =>
    intro seeds n0 t0 g hg
    rcases List.mem_cons.mp hg with h | h
    · subst h
      refine ⟨rfl, rfl, Nat.le_refl _, ?_, 0, by omega, by simp, by simp⟩
      show n0 < n0 + (k + 1)
      omega
    · obtain ⟨h1, h2, h3, h4, j, hj, htask, hid⟩ := ih seeds.tail (n0 + 1) (t0 + 1) g h
      exact ⟨h1, h2, by omega, by omega, j + 1, by omega,
        by rw [htask]; congr 1; omega, by omega⟩

theorem linkedGenerationRows_map_seed (u : String) (b : Nat) :
    ∀ (k : Nat) (seeds : List (Option Int)) (n0 t0 : Nat), k ≤ seeds.length →
      (linkedGenerationRows u b k seeds n0 t0).map (·.seed) = seeds.take k := by
  intro k
  induction k with
  | zero => intro seeds n0 t0 _; simp [linkedGenerationRows]
  | succ k ih =>
    intro seeds n0 t0 hk
    cases seeds with
    | nil => simp at hk
    | cons s rest =>
      simp only [linkedGenerationRows, List.map_cons, List.headD_cons, List.tail_cons,
        List.take_succ_cons]
      exact congrArg (s :: ·) (ih rest (n0 + 1) (t0 + 1) (by simpa using hk))

theorem linkedGenerationRows_map_taskId (u : String) (b : Nat) :
    ∀ (k : Nat) (seeds : List (Option Int)) (n0 t0 : Nat),
      (linkedGenerationRows u b k seeds n0 t0).map (·.asyncTaskId) =
        (taskRows u k t0).map (fun t => some t.id) := by
  intro k
  induction k with
  | zero => intro seeds n0 t0; simp [linkedGenerationRows, taskRows]
  | succ k ih =>
    intro seeds n0 t0
    simp only [linkedGenerationRows, taskRows, List.map_cons]
    exact congrArg (some t0 :: ·) (ih seeds.tail (n0 + 1) (t0 + 1))

theorem mkPairs_map_fst :
    ∀ (gens : List GenerationRow) (t0 : Nat), (mkPairs gens t0).map (·.1) = gens := by
  intro gens
  induction gens with
  | nil => intro t0; rfl
  | cons g rest ih => intro t0; simp [mkPairs, ih]

theorem mkPairs_length :
    ∀ (gens : List GenerationRow) (t0 : Nat), (mkPairs gens t0).length = gens.length := by
  intro gens
  induction gens with
  | nil => intro t0; rfl
  | cons g rest ih => intro t0; simp [mkPairs, ih]

theorem mkPairs_mem :
    ∀ (gens : List GenerationRow) (t0 : Nat), ∀ p ∈ mkPairs gens t0,
      p.1 ∈ gens ∧ t0 ≤ p.2 ∧ p.2 < t0 + gens.length := by
  intro gens
  induction gens with
  | nil => intro t0 p hp; exact absurd hp (by simp [mkPairs])
  | cons g rest ih =>
    intro t0 p hp
    rcases List.mem_cons.mp hp with h | h
    · subst h; exact ⟨List.mem_cons_self _ _, Nat.le_refl _, by simp⟩
    · obtain ⟨h1, h2, h3⟩ := ih (t0 + 1) p h
      exact ⟨List.mem_cons_of_mem _ h1, by omega, by simp; omega⟩

theorem mkPairs_map_snd_eq_taskRows_map_id (u : String) :
    ∀ (gens : List GenerationRow) (t0 : Nat),
      (mkPairs gens t0).map (·.2) = (taskRows u gens.length t0).map (·.id) := by
  intro gens
  induction gens with
  | nil => intro t0; rfl
  | cons g rest ih =>
    intro t0
    simp only [mkPairs, taskRows, List.map_cons, List.length_cons]
    exact congrArg (t0 :: ·) (ih (t0 + 1))

theorem mkPairs_map_snd_nodup :
    ∀ (gens : List GenerationRow) (t0 : Nat), ((mkPairs gens t0).map (·.2)).Nodup := by
  intro gens t0
  rw [mkPairs_map_snd_eq_taskRows_map_id "" gens t0]
  exact taskRows_map_id_nodup "" gens.length t0

/-! Lemmas about the composed task-reference updates. -/

theorem setTasksAll_eq_map (u : String) :
    ∀ (pairs : List (GenerationRow × Nat)) (rows : List GenerationRow),
      setTasksAll u pairs rows = rows.map (applyPairsRow u pairs) := by
  intro pairs
  induction pairs with
  | nil => intro rows; simp [setTasksAll, applyPairsRow]
  | cons p rest ih =>
    intro rows
    obtain ⟨g, tid⟩ := p
    rw [setTasksAll, ih, setTask, List.map_map]
    rfl

theorem applyPairsRow_cons (u : String) (g : GenerationRow) (tid : Nat)
    (rest : List (GenerationRow × Nat)) (row : GenerationRow) :
    applyPairsRow u ((g, tid) :: rest) row =
      applyPairsRow u rest
        (if row.id = g.id ∧ row.userId = u then { row with asyncTaskId := some tid }
         else row) := rfl

theorem applyPairsRow_no_match (u : String) :
    ∀ (pairs : List (GenerationRow × Nat)) (row : GenerationRow),
      (∀ p ∈ pairs, ¬(row.id = p.1.id ∧ row.userId = u)) →
        applyPairsRow u pairs row = row := by
  intro pairs
  induction pairs with
  | nil => intro row _; rfl
  | cons p rest ih =>
    intro row hno
    obtain ⟨g, tid⟩ := p
    rw [applyPairsRow_cons, if_neg (hno (g, tid) (List.mem_cons_self _ _))]
    exact ih row fun q hq => hno q (List.mem_cons_of_mem _ hq)

theorem newGenerationRows_map_applyPairs (u : String) (b : Nat) :
    ∀ (k : Nat) (seeds : List (Option Int)) (n0 t0 : Nat),
      (newGenerationRows u b k seeds n0).map
          (applyPairsRow u (mkPairs (newGenerationRows u b k seeds n0) t0)) =
        linkedGenerationRows u b k seeds n0 t0 := by
  intro k
  induction k with
  | zero => intro seeds n0 t0; simp [newGenerationRows, mkPairs, linkedGenerationRows]
  | succ k ih =>
    intro seeds n0 t0
    simp only [newGenerationRows, mkPairs, List.map_cons, linkedGenerationRows,
      List.cons.injEq]
    constructor
    · -- the head row is matched by its own pair, then untouched by the rest
      rw [applyPairsRow_cons, if_pos ⟨rfl, rfl⟩]
      exact applyPairsRow_no_match u _ _ (by
        intro p hp hmatch
        have h1 := (mkPairs_mem _ (t0 + 1) p hp).1
        have h2 := (newGenerationRows_mem u b k seeds.tail (n0 + 1) p.1 h1).2.2.2.1
        have : n0 = p.1.id := hmatch.1
        omega)
    · -- every tail row is not matched by the head pair, so the head pair drops out
      have hcong : ∀ row ∈ newGenerationRows u b k seeds.tail (n0 + 1),
          applyPairsRow u
              (({ id := n0, userId := u, generationBatchId := b,
                  seed := seeds.headD none, asyncTaskId := none }, t0) ::
                mkPairs (newGenerationRows u b k seeds.tail (n0 + 1)) (t0 + 1)) row =
            applyPairsRow u
              (mkPairs (newGenerationRows u b k seeds.tail (n0 + 1)) (t0 + 1)) row := by
        intro row hrow
        rw [applyPairsRow_cons]
        have hb := (newGenerationRows_mem u b k seeds.tail (n0 + 1) row hrow).2.2.2.1
        rw [if_neg]
        intro hmatch
        have : row.id = n0 := hmatch.1
        omega
      rw [List.map_congr_left hcong]
      exact ih seeds.tail (n0 + 1) (t0 + 1)

/-! Closed form of the per-generation loop when every write succeeds, and its
failure when some write in its range fails. -/

theorem attachTasks_ok (env : Env) (u : String) (hok : ∀ k, env.writeOk k = true) :
    ∀ (gens : List GenerationRow) (opIdx : Nat) (db : Database),
      attachTasks env u gens opIdx db =
        .ok ({ batches := db.batches,
               generations := setTasksAll u (mkPairs gens db.nextId) db.generations,
               asyncTasks := db.asyncTasks ++ taskRows u gens.length db.nextId,
               nextId := db.nextId + gens.length },
             opIdx + 2 * gens.length, mkPairs gens db.nextId) := by
  intro gens
  induction gens with
  | nil => intro opIdx db; simp [attachTasks, mkPairs, setTasksAll, taskRows]
  | cons g rest ih =>
    intro opIdx db
    rw [attachTasks, if_pos (hok opIdx), if_pos (hok (opIdx + 1))]
    dsimp only
    rw [ih (opIdx + 2)]
    simp only [mkPairs, setTasksAll, taskRows, List.length_cons, Except.ok.injEq,
      Database.mk.injEq, Prod.mk.injEq, List.append_assoc, List.singleton_append,
      true_and, and_true]
    omega

theorem attachTasks_fail (env : Env) (u : String) :
    ∀ (gens : List GenerationRow) (opIdx : Nat) (db : Database),
      (∃ j, opIdx ≤ j ∧ j < opIdx + 2 * gens.length ∧ env.writeOk j = false) →
        ∃ e, attachTasks env u gens opIdx db = .error e := by
  intro gens
  induction gens with
  | nil =>
    intro opIdx db ⟨j, h1, h2, _⟩
    simp only [List.length_nil] at h2
    omega
  | cons g rest ih =>
    intro opIdx db ⟨j, h1, h2, hj⟩
    rw [attachTasks]
    by_cases hA : env.writeOk opIdx = true
    · rw [if_pos hA]
      by_cases hB : env.writeOk (opIdx + 1) = true
      · rw [if_pos hB]
        dsimp only
        have hjrange : opIdx + 2 ≤ j := by
          rcases Nat.lt_or_ge j (opIdx + 2) with h | h
          · exfalso
            have hcases : j = opIdx ∨ j = opIdx + 1 := by omega
            rcases hcases with hc | hc <;> subst hc
            · rw [hA] at hj; exact Bool.noConfusion hj
            · rw [hB] at hj; exact Bool.noConfusion hj
          · exact h
        have h2r : j < opIdx + 2 + 2 * rest.length := by
          simp only [List.length_cons] at h2; omega
        obtain ⟨e, he⟩ := ih (opIdx + 2)
          { batches := db.batches,
            generations := setTask u g.id db.nextId db.generations,
            asyncTasks := db.asyncTasks ++ [mkTask u db.nextId],
            nextId := db.nextId + 1 }
          ⟨j, hjrange, h2r, hj⟩
        exact ⟨e, by rw [he]⟩
      · rw [if_neg hB]; exact ⟨_, rfl⟩
    · rw [if_neg hA]; exact ⟨_, rfl⟩

/-! Closed form of the whole transaction body. -/

theorem seedsForBatch_length (params : ImageParams) (imageNum : Nat) :
    (seedsForBatch params imageNum).length = imageNum := by
  unfold seedsForBatch
  by_cases h : params.seed.isSome
  · rw [if_pos h, List.length_map]
    unfold generateUniqueSeeds
    rw [List.length_map, List.length_range]
  · rw [if_neg h, List.length_map, List.length_range]

theorem createImageTx_ok (env : Env) (u : String) (input : CreateImageInput)
    (config : ImageParams) (db : Database) (hok : ∀ k, env.writeOk k = true) :
    createImageTx env u input config db =
      .ok (txDb u input config db, mkBatchRow u input config db.nextId,
        txPairs u input db.nextId) := by
  rw [createImageTx, if_pos (hok 0), if_pos (hok 1)]
  dsimp only
  rw [attachTasks_ok env u hok]
  have hlen := newGenerationRows_length u db.nextId input.imageNum
    (seedsForBatch input.params input.imageNum) (db.nextId + 1)
  simp only [Except.ok.injEq, Prod.mk.injEq, txDb, txPairs, txNewGens, mkBatchRow,
    Database.mk.injEq, hlen, true_and, and_true]
  omega

theorem createImageTx_fail (env : Env) (u : String) (input : CreateImageInput)
    (config : ImageParams) (db : Database)
    (hfail : ∃ j, j < 2 + 2 * input.imageNum ∧ env.writeOk j = false) :
    ∃ e, createImageTx env u input config db = .error e := by
  obtain ⟨j, hj, hjf⟩ := hfail
  rw [createImageTx]
  by_cases h0 : env.writeOk 0 = true
  · rw [if_pos h0]
    by_cases h1 : env.writeOk 1 = true
    · rw [if_pos h1]
      dsimp only
      have hj2 : 2 ≤ j := by
        rcases Nat.lt_or_ge j 2 with h | h
        · exfalso
          have hcases : j = 0 ∨ j = 1 := by omega
          rcases hcases with hc | hc <;> subst hc
          · rw [h0] at hjf; exact Bool.noConfusion hjf
          · rw [h1] at hjf; exact Bool.noConfusion hjf
        · exact h
      have hlen : (newGenerationRows u db.nextId input.imageNum
          (seedsForBatch input.params input.imageNum) (db.nextId + 1)).length =
            input.imageNum :=
        newGenerationRows_length u db.nextId input.imageNum _ (db.nextId + 1)
      obtain ⟨e, he⟩ := attachTasks_fail env u
        (newGenerationRows u db.nextId input.imageNum
          (seedsForBatch input.params input.imageNum) (db.nextId + 1)) 2
        { batches := db.batches ++ [mkBatchRow u input config db.nextId],
          generations := db.generations ++
            newGenerationRows u db.nextId input.imageNum
              (seedsForBatch input.params input.imageNum) (db.nextId + 1),
          asyncTasks := db.asyncTasks,
          nextId := db.nextId + 1 + input.imageNum }
        ⟨j, hj2, by rw [hlen]; omega, hjf⟩
      simp only [mkBatchRow] at he
      exact ⟨e, by rw [he]⟩
    · rw [if_neg h1]; exact ⟨_, rfl⟩
  · rw [if_neg h0]; exact ⟨_, rfl⟩

theorem txDb_generations (u : String) (input : CreateImageInput)
    (config : ImageParams) (db : Database) (hwf : WellFormed db) :
    (txDb u input config db).generations =
      db.generations ++ txLinked u input db.nextId := by
  show setTasksAll u (txPairs u input db.nextId)
      (db.generations ++ txNewGens u input db.nextId) = _
  rw [setTasksAll_eq_map, List.map_append]
  have hold : db.generations.map (applyPairsRow u (txPairs u input db.nextId)) =
      db.generations := by
    rw [List.map_congr_left, List.map_id]
    intro row hrow
    apply applyPairsRow_no_match
    intro p hp hmatch
    have h1 := (mkPairs_mem _ _ p hp).1
    have h2 := (newGenerationRows_mem u db.nextId input.imageNum
      (seedsForBatch input.params input.imageNum) (db.nextId + 1) p.1 h1).2.2.2.1
    have h3 := hwf.2.1 row hrow
    have h4 : row.id = p.1.id := hmatch.1
    omega
  rw [hold]
  show db.generations ++ (txNewGens u input db.nextId).map
    (applyPairsRow u (mkPairs (txNewGens u input db.nextId)
      (db.nextId + 1 + input.imageNum))) = _
  rw [show txNewGens u input db.nextId = newGenerationRows u db.nextId
      input.imageNum (seedsForBatch input.params input.imageNum) (db.nextId + 1)
    from rfl]
  rw [newGenerationRows_map_applyPairs]
  rfl

/-! Lemmas about the status-update collaborator. -/

theorem findTask_eq_none_iff (tid : Nat) (u : String) :
    ∀ l : List AsyncTaskRow,
      findTask tid u l = none ↔ ∀ r ∈ l, ¬(r.id = tid ∧ r.userId = u) := by
  intro l
  induction l with
  | nil => simp [findTask]
  | cons t rest ih =>
    rw [findTask]
    by_cases h : t.id = tid ∧ t.userId = u
    · rw [if_pos h]
      constructor
      · intro hc; exact absurd hc (by simp)
      · intro hall; exact absurd h (hall t (List.mem_cons_self _ _))
    · rw [if_neg h, ih]
      constructor
      · intro hall r hr
        rcases List.mem_cons.mp hr with hc | hc
        · subst hc; exact h
        · exact hall r hc
      · intro hall r hr; exact hall r (List.mem_cons_of_mem _ hr)

theorem findTask_eq_some_mem (tid : Nat) (u : String) :
    ∀ (l : List AsyncTaskRow) (r : AsyncTaskRow), findTask tid u l = some r →
      r ∈ l ∧ r.id = tid ∧ r.userId = u := by
  intro l
  induction l with
  | nil => intro r h; exact absurd h (by simp [findTask])
  | cons t rest ih =>
    intro r h
    rw [findTask] at h
    by_cases hc : t.id = tid ∧ t.userId = u
    · rw [if_pos hc] at h
      cases h
      exact ⟨List.mem_cons_self _ _, hc⟩
    · rw [if_neg hc] at h
      obtain ⟨h1, h2⟩ := ih r h
      exact ⟨List.mem_cons_of_mem _ h1, h2⟩

theorem findTask_append_left_none (tid : Nat) (u : String)
    (l1 l2 : List AsyncTaskRow) (h : ∀ r ∈ l1, ¬(r.id = tid ∧ r.userId = u)) :
    findTask tid u (l1 ++ l2) = findTask tid u l2 := by
  induction l1 with
  | nil => rfl
  | cons t rest ih =>
    rw [List.cons_append, findTask, if_neg (h t (List.mem_cons_self _ _))]
    exact ih fun r hr => h r (List.mem_cons_of_mem _ hr)

theorem findTask_map (tid : Nat) (u : String) (f : AsyncTaskRow → AsyncTaskRow)
    (hf : ∀ r, (f r).id = r.id ∧ (f r).userId = r.userId) :
    ∀ l : List AsyncTaskRow, findTask tid u (l.map f) = (findTask tid u l).map f := by
  intro l
  induction l with
  | nil => rfl
  | cons t rest ih =>
    rw [List.map_cons, findTask, findTask]
    by_cases h : t.id = tid ∧ t.userId = u
    · rw [if_pos (by rw [(hf t).1, (hf t).2]; exact h), if_pos h]
      rfl
    · rw [if_neg (by rw [(hf t).1, (hf t).2]; exact h), if_neg h, ih]

theorem asyncTaskModelUpdate_fst (u : String) (tid : Nat) (s : AsyncTaskStatus)
    (e : Option AsyncTaskError) (db : Database) :
    (asyncTaskModelUpdate u tid s e db).1 =
      { db with asyncTasks := db.asyncTasks.map (updRow u tid s e) } := by
  rw [asyncTaskModelUpdate]
  cases hf : findTask tid u db.asyncTasks with
  | none =>
    have hmap : db.asyncTasks.map (updRow u tid s e) = db.asyncTasks := by
      rw [List.map_congr_left, List.map_id]
      intro r hr
      exact if_neg ((findTask_eq_none_iff tid u db.asyncTasks).mp hf r hr)
    rw [hmap]
  | some t => rfl

theorem asyncTaskModelUpdate_writes (u : String) (tid : Nat) (s : AsyncTaskStatus)
    (e : Option AsyncTaskError) (db : Database) :
    (asyncTaskModelUpdate u tid s e db).2 =
      match findTask tid u db.asyncTasks with
      | none => []
      | some t => [{ taskId := tid, oldStatus := t.status, newStatus := s }] := by
  rw [asyncTaskModelUpdate]
  cases hf : findTask tid u db.asyncTasks with
  | none => rfl
  | some t => rfl

theorem updRow_preserves (u : String) (tid : Nat) (s : AsyncTaskStatus)
    (e : Option AsyncTaskError) (r : AsyncTaskRow) :
    (updRow u tid s e r).id = r.id ∧ (updRow u tid s e r).userId = r.userId := by
  rw [updRow]
  by_cases h : r.id = tid ∧ r.userId = u
  · rw [if_pos h]; exact ⟨rfl, rfl⟩
  · rw [if_neg h]; exact ⟨rfl, rfl⟩

theorem updRow_ne (u : String) (tid : Nat) (s : AsyncTaskStatus)
    (e : Option AsyncTaskError) (r : AsyncTaskRow) (h : r.id ≠ tid) :
    updRow u tid s e r = r := by
  rw [updRow, if_neg]
  intro hc
  exact h hc.1

theorem stepRowT_preserves (env : Env) (u : String) (tid : Nat) (r : AsyncTaskRow) :
    (stepRowT env u tid r).id = r.id ∧ (stepRowT env u tid r).userId = r.userId := by
  rw [stepRowT]
  cases env.callRejects tid with
  | none => exact ⟨rfl, rfl⟩
  | some msg =>
    dsimp only
    by_cases h : env.updateOk tid = true
    · rw [if_pos h]; exact updRow_preserves u tid _ _ r
    · rw [if_neg h]; exact ⟨rfl, rfl⟩

theorem stepRowT_ne (env : Env) (u : String) (tid : Nat) (r : AsyncTaskRow)
    (h : r.id ≠ tid) : stepRowT env u tid r = r := by
  rw [stepRowT]
  cases env.callRejects tid with
  | none => rfl
  | some msg =>
    dsimp only
    by_cases hu : env.updateOk tid = true
    · rw [if_pos hu]; exact updRow_ne u tid _ _ r h
    · rw [if_neg hu]

theorem stepRowF_preserves (env : Env) (u msg : String) (tid : Nat)
    (r : AsyncTaskRow) :
    (stepRowF env u msg tid r).id = r.id ∧ (stepRowF env u msg tid r).userId = r.userId := by
  rw [stepRowF]
  by_cases h : env.updateOk tid = true
  · rw [if_pos h]; exact updRow_preserves u tid _ _ r
  · rw [if_neg h]; exact ⟨rfl, rfl⟩

theorem stepRowF_ne (env : Env) (u msg : String) (tid : Nat) (r : AsyncTaskRow)
    (h : r.id ≠ tid) : stepRowF env u msg tid r = r := by
  rw [stepRowF]
  by_cases hu : env.updateOk tid = true
  · rw [if_pos hu]; exact updRow_ne u tid _ _ r h
  · rw [if_neg hu]

theorem map_eq_self_of_eq_id {α : Type} (l : List α) (f : α → α)
    (h : ∀ a ∈ l, f a = a) : l.map f = l := by
  induction l with
  | nil => rfl
  | cons x xs ih =>
    rw [List.map_cons, h x (List.mem_cons_self _ _),
      ih fun a ha => h a (List.mem_cons_of_mem _ ha)]

theorem stepRowT_none (env : Env) (u : String) (tid : Nat) (r : AsyncTaskRow)
    (hc : env.callRejects tid = none) : stepRowT env u tid r = r := by
  rw [stepRowT, hc]

theorem stepRowT_some_ok (env : Env) (u : String) (tid : Nat) (r : AsyncTaskRow)
    (msg : Option String) (hc : env.callRejects tid = some msg)
    (hu : env.updateOk tid = true) :
    stepRowT env u tid r = updRow u tid .Error
      (some { kind := .ServerError, message := jsOrString msg "Unknown error" }) r := by
  rw [stepRowT, hc]
  dsimp only
  rw [if_pos hu]

theorem stepRowT_some_fail (env : Env) (u : String) (tid : Nat) (r : AsyncTaskRow)
    (msg : Option String) (hc : env.callRejects tid = some msg)
    (hu : env.updateOk tid = false) : stepRowT env u tid r = r := by
  rw [stepRowT, hc]
  dsimp only
  rw [if_neg (by rw [hu]; exact Bool.noConfusion)]

theorem dispatchStep_fst (env : Env) (u : String) (tid : Nat) (db : Database) :
    (dispatchStep env u tid db).1 =
      { db with asyncTasks := db.asyncTasks.map (stepRowT env u tid) } := by
  rw [dispatchStep]
  cases hc : env.callRejects tid with
  | none =>
    dsimp only
    have hmap : db.asyncTasks.map (stepRowT env u tid) = db.asyncTasks :=
      map_eq_self_of_eq_id _ _ fun r _ => stepRowT_none env u tid r hc
    rw [hmap]
  | some msg =>
    dsimp only
    by_cases hu : env.updateOk tid = true
    · rw [if_pos hu, asyncTaskModelUpdate_fst]
      have hmap : db.asyncTasks.map (stepRowT env u tid) =
          db.asyncTasks.map (updRow u tid .Error
            (some { kind := .ServerError, message := jsOrString msg "Unknown error" })) :=
        List.map_congr_left fun r _ => stepRowT_some_ok env u tid r msg hc hu
      rw [hmap]
    · rw [if_neg hu]
      have hmap : db.asyncTasks.map (stepRowT env u tid) = db.asyncTasks :=
        map_eq_self_of_eq_id _ _ fun r _ =>
          stepRowT_some_fail env u tid r msg hc (Bool.not_eq_true _ |>.mp hu)
      rw [hmap]

theorem dispatchStep_writes_mem (env : Env) (u : String) (tid : Nat) (db : Database) :
    ∀ w ∈ (dispatchStep env u tid db).2,
      w.taskId = tid ∧ w.newStatus = .Error ∧
        ∃ r, r ∈ db.asyncTasks ∧ r.id = tid ∧ r.userId = u ∧ w.oldStatus = r.status := by
  intro w hw
  rw [dispatchStep] at hw
  cases hc : env.callRejects tid with
  | none => rw [hc] at hw; exact absurd hw (by simp)
  | some msg =>
    rw [hc] at hw
    dsimp only at hw
    by_cases hu : env.updateOk tid = true
    · rw [if_pos hu] at hw
      have hwr := asyncTaskModelUpdate_writes u tid .Error
        (some { kind := .ServerError, message := jsOrString msg "Unknown error" }) db
      cases hf : findTask tid u db.asyncTasks with
      | none => rw [hwr, hf] at hw; exact absurd hw (by simp)
      | some t =>
        rw [hwr, hf] at hw
        rcases List.mem_singleton.mp hw with hweq
        subst hweq
        obtain ⟨hmem, hid, huid⟩ := findTask_eq_some_mem tid u db.asyncTasks t hf
        exact ⟨rfl, rfl, t, hmem, hid, huid, rfl⟩
    · rw [if_neg hu] at hw; exact absurd hw (by simp)

theorem dispatchStep_writes_cases (env : Env) (u : String) (tid : Nat) (db : Database) :
    (dispatchStep env u tid db).2 = [] ∨
      ∃ o, (dispatchStep env u tid db).2 =
        [{ taskId := tid, oldStatus := o, newStatus := .Error }] := by
  rw [dispatchStep]
  cases hc : env.callRejects tid with
  | none => exact Or.inl rfl
  | some msg =>
    dsimp only
    by_cases hu : env.updateOk tid = true
    · rw [if_pos hu, asyncTaskModelUpdate_writes]
      cases hf : findTask tid u db.asyncTasks with
      | none => exact Or.inl rfl
      | some t => exact Or.inr ⟨t.status, rfl⟩
    · rw [if_neg hu]; exact Or.inl rfl

theorem dispatchRowOutcome_nil (env : Env) (u : String) (r : AsyncTaskRow) :
    dispatchRowOutcome env u [] r = r := by
  rw [dispatchRowOutcome, if_neg (List.not_mem_nil r.id)]

theorem dispatchRowOutcome_cons (env : Env) (u : String) (tid : Nat)
    (tids : List Nat) (r : AsyncTaskRow) (h : tid ∉ tids) :
    dispatchRowOutcome env u (tid :: tids) r =
      dispatchRowOutcome env u tids (stepRowT env u tid r) := by
  by_cases hid : r.id = tid
  · rw [dispatchRowOutcome, if_pos (by rw [hid]; exact List.mem_cons_self _ _), hid]
    rw [dispatchRowOutcome, if_neg]
    rw [(stepRowT_preserves env u tid r).1, hid]
    exact h
  · rw [stepRowT_ne env u tid r hid]
    rw [dispatchRowOutcome, dispatchRowOutcome]
    by_cases hmem : r.id ∈ tids
    · rw [if_pos (List.mem_cons_of_mem _ hmem), if_pos hmem]
    · have hnotin : r.id ∉ tid :: tids := by
        intro hc
        rcases List.mem_cons.mp hc with hc | hc
        · exact hid hc
        · exact hmem hc
      rw [if_neg hnotin, if_neg hmem]

theorem dispatchTasks_fst_frame (env : Env) (u p m : String) (params : ImageParams) :
    ∀ (pairs : List (GenerationRow × Nat)) (db : Database),
      (dispatchTasks env u p m params pairs db).1.batches = db.batches ∧
        (dispatchTasks env u p m params pairs db).1.generations = db.generations ∧
          (dispatchTasks env u p m params pairs db).1.nextId = db.nextId := by
  intro pairs
  induction pairs with
  | nil => intro db; exact ⟨rfl, rfl, rfl⟩
  | cons pr rest ih =>
    intro db
    obtain ⟨g, tid⟩ := pr
    rw [dispatchTasks]
    dsimp only
    obtain ⟨h1, h2, h3⟩ := ih (dispatchStep env u tid db).1
    rw [h1, h2, h3, dispatchStep_fst]
    exact ⟨rfl, rfl, rfl⟩

theorem dispatchTasks_calls (env : Env) (u p m : String) (params : ImageParams) :
    ∀ (pairs : List (GenerationRow × Nat)) (db : Database),
      (dispatchTasks env u p m params pairs db).2.1 =
        pairs.map (mkCall p m params) := by
  intro pairs
  induction pairs with
  | nil => intro db; rfl
  | cons pr rest ih =>
    intro db
    obtain ⟨g, tid⟩ := pr
    rw [dispatchTasks]
    dsimp only
    rw [List.map_cons, ih]
    rfl

theorem dispatchTasks_asyncTasks (env : Env) (u p m : String) (params : ImageParams) :
    ∀ (pairs : List (GenerationRow × Nat)) (db : Database),
      (pairs.map (·.2)).Nodup →
        (dispatchTasks env u p m params pairs db).1.asyncTasks =
          db.asyncTasks.map (dispatchRowOutcome env u (pairs.map (·.2))) := by
  intro pairs
  induction pairs with
  | nil =>
    intro db _
    show db.asyncTasks = _
    exact (map_eq_self_of_eq_id _ _ fun r _ => dispatchRowOutcome_nil env u r).symm
  | cons pr rest ih =>
    intro db hnd
    obtain ⟨g, tid⟩ := pr
    simp only [List.map_cons, List.nodup_cons] at hnd
    obtain ⟨htid, hrest⟩ := hnd
    rw [dispatchTasks]
    dsimp only
    rw [ih (dispatchStep env u tid db).1 hrest, dispatchStep_fst]
    show (db.asyncTasks.map (stepRowT env u tid)).map
        (dispatchRowOutcome env u (rest.map (·.2))) =
      db.asyncTasks.map (dispatchRowOutcome env u (tid :: rest.map (·.2)))
    rw [List.map_map]
    exact (List.map_congr_left fun r _ =>
      dispatchRowOutcome_cons env u tid (rest.map (·.2)) r htid).symm

theorem dispatchTasks_writes_shape (env : Env) (u p m : String) (params : ImageParams) :
    ∀ (pairs : List (GenerationRow × Nat)) (db : Database),
      ∀ w ∈ (dispatchTasks env u p m params pairs db).2.2,
        w.taskId ∈ pairs.map (·.2) ∧ w.newStatus = .Error := by
  intro pairs
  induction pairs with
  | nil => intro db w hw; exact absurd hw (by simp [dispatchTasks])
  | cons pr rest ih =>
    intro db w hw
    obtain ⟨g, tid⟩ := pr
    rw [dispatchTasks] at hw
    dsimp only at hw
    rcases List.mem_append.mp hw with h | h
    · obtain ⟨h1, h2, _⟩ := dispatchStep_writes_mem env u tid db w h
      exact ⟨by rw [List.map_cons]; exact h1 ▸ List.mem_cons_self _ _, h2⟩
    · obtain ⟨h1, h2⟩ := ih (dispatchStep env u tid db).1 w h
      exact ⟨by rw [List.map_cons]; exact List.mem_cons_of_mem _ h1, h2⟩

theorem dispatchTasks_writes_pending (env : Env) (u p m : String) (params : ImageParams) :
    ∀ (pairs : List (GenerationRow × Nat)) (db : Database),
      (pairs.map (·.2)).Nodup →
        (∀ pr ∈ pairs, ∀ r ∈ db.asyncTasks,
          r.id = pr.2 → r.userId = u → r.status = .Pending) →
          ∀ w ∈ (dispatchTasks env u p m params pairs db).2.2,
            w.oldStatus = .Pending := by
  intro pairs
  induction pairs with
  | nil => intro db _ _ w hw; exact absurd hw (by simp [dispatchTasks])
  | cons pr rest ih =>
    intro db hnd hp w hw
    obtain ⟨g, tid⟩ := pr
    simp only [List.map_cons, List.nodup_cons] at hnd
    obtain ⟨htid, hrest⟩ := hnd
    rw [dispatchTasks] at hw
    dsimp only at hw
    rcases List.mem_append.mp hw with h | h
    · obtain ⟨_, _, r, hmem, hid, huid, hold⟩ := dispatchStep_writes_mem env u tid db w h
      rw [hold]
      exact hp (g, tid) (List.mem_cons_self _ _) r hmem hid huid
    · refine ih (dispatchStep env u tid db).1 hrest ?_ w h
      intro pr2 hpr2 r hr hid huid
      rw [dispatchStep_fst] at hr
      rcases List.mem_map.mp hr with ⟨r0, hr0, hr0eq⟩
      have hpr2tid : pr2.2 ≠ tid := by
        intro hc
        exact htid (hc ▸ List.mem_map.mpr ⟨pr2, hpr2, rfl⟩)
      have hr0id : r0.id ≠ tid := by
        intro hc
        rw [← hr0eq] at hid
        rw [(stepRowT_preserves env u tid r0).1, hc] at hid
        exact hpr2tid hid.symm
      rw [← hr0eq, stepRowT_ne env u tid r0 hr0id] at hid huid ⊢
      exact hp pr2 (List.mem_cons_of_mem _ hpr2) r0 hr0 hid huid

theorem dispatchTasks_writes_nodup (env : Env) (u p m : String) (params : ImageParams) :
    ∀ (pairs : List (GenerationRow × Nat)) (db : Database),
      (pairs.map (·.2)).Nodup →
        (((dispatchTasks env u p m params pairs db).2.2).map (·.taskId)).Nodup := by
  intro pairs
  induction pairs with
  | nil => intro db _; simp [dispatchTasks]
  | cons pr rest ih =>
    intro db hnd
    obtain ⟨g, tid⟩ := pr
    simp only [List.map_cons, List.nodup_cons] at hnd
    obtain ⟨htid, hrest⟩ := hnd
    rw [dispatchTasks]
    dsimp only
    have hrecur := ih (dispatchStep env u tid db).1 hrest
    have hsub : ∀ w ∈ (dispatchTasks env u p m params rest
        (dispatchStep env u tid db).1).2.2, w.taskId ∈ rest.map (·.2) :=
      fun w hw => (dispatchTasks_writes_shape env u p m params rest
        (dispatchStep env u tid db).1 w hw).1
    rcases dispatchStep_writes_cases env u tid db with hc | ⟨o, hc⟩
    · rw [hc, List.nil_append]
      exact hrecur
    · rw [hc, List.singleton_append, List.map_cons, List.nodup_cons]
      refine ⟨?_, hrecur⟩
      intro hmem
      rcases List.mem_map.mp hmem with ⟨w, hw, hweq⟩
      have := hsub w hw
      rw [hweq] at this
      exact htid this

/-! The fallback loop: same characterizations. -/

theorem stepRowF_ok (env : Env) (u msg : String) (tid : Nat) (r : AsyncTaskRow)
    (hu : env.updateOk tid = true) :
    stepRowF env u msg tid r = updRow u tid .Error
      (some { kind := .ServerError, message := msg }) r := by
  rw [stepRowF, if_pos hu]

theorem stepRowF_fail (env : Env) (u msg : String) (tid : Nat) (r : AsyncTaskRow)
    (hu : env.updateOk tid = false) : stepRowF env u msg tid r = r := by
  rw [stepRowF, if_neg (by rw [hu]; exact Bool.noConfusion)]

theorem fallbackStep_fst (env : Env) (u msg : String) (tid : Nat) (db : Database) :
    (fallbackStep env u msg tid db).1 =
      { db with asyncTasks := db.asyncTasks.map (stepRowF env u msg tid) } := by
  rw [fallbackStep]
  by_cases hu : env.updateOk tid = true
  · rw [if_pos hu, asyncTaskModelUpdate_fst]
    have hmap : db.asyncTasks.map (stepRowF env u msg tid) =
        db.asyncTasks.map (updRow u tid .Error
          (some { kind := .ServerError, message := msg })) :=
      List.map_congr_left fun r _ => stepRowF_ok env u msg tid r hu
    rw [hmap]
  · rw [if_neg hu]
    have hmap : db.asyncTasks.map (stepRowF env u msg tid) = db.asyncTasks :=
      map_eq_self_of_eq_id _ _ fun r _ =>
        stepRowF_fail env u msg tid r (Bool.not_eq_true _ |>.mp hu)
    rw [hmap]

theorem fallbackStep_writes_mem (env : Env) (u msg : String) (tid : Nat)
    (db : Database) :
    ∀ w ∈ (fallbackStep env u msg tid db).2,
      w.taskId = tid ∧ w.newStatus = .Error ∧
        ∃ r, r ∈ db.asyncTasks ∧ r.id = tid ∧ r.userId = u ∧ w.oldStatus = r.status := by
  intro w hw
  rw [fallbackStep] at hw
  by_cases hu : env.updateOk tid = true
  · rw [if_pos hu] at hw
    have hwr := asyncTaskModelUpdate_writes u tid .Error
      (some { kind := .ServerError, message := msg }) db
    cases hf : findTask tid u db.asyncTasks with
    | none => rw [hwr, hf] at hw; exact absurd hw (by simp)
    | some t =>
      rw [hwr, hf] at hw
      rcases List.mem_singleton.mp hw with hweq
      subst hweq
      obtain ⟨hmem, hid, huid⟩ := findTask_eq_some_mem tid u db.asyncTasks t hf
      exact ⟨rfl, rfl, t, hmem, hid, huid, rfl⟩
  · rw [if_neg hu] at hw; exact absurd hw (by simp)

theorem fallbackRowOutcome_nil (env : Env) (u msg : String) (r : AsyncTaskRow) :
    fallbackRowOutcome env u msg [] r = r := by
  rw [fallbackRowOutcome, if_neg (List.not_mem_nil r.id)]

theorem fallbackRowOutcome_cons (env : Env) (u msg : String) (tid : Nat)
    (tids : List Nat) (r : AsyncTaskRow) (h : tid ∉ tids) :
    fallbackRowOutcome env u msg (tid :: tids) r =
      fallbackRowOutcome env u msg tids (stepRowF env u msg tid r) := by
  by_cases hid : r.id = tid
  · rw [fallbackRowOutcome, if_pos (by rw [hid]; exact List.mem_cons_self _ _), hid]
    rw [fallbackRowOutcome, if_neg]
    rw [(stepRowF_preserves env u msg tid r).1, hid]
    exact h
  · rw [stepRowF_ne env u msg tid r hid]
    rw [fallbackRowOutcome, fallbackRowOutcome]
    by_cases hmem : r.id ∈ tids
    · rw [if_pos (List.mem_cons_of_mem _ hmem), if_pos hmem]
    · have hnotin : r.id ∉ tid :: tids := by
        intro hc
        rcases List.mem_cons.mp hc with hc | hc
        · exact hid hc
        · exact hmem hc
      rw [if_neg hnotin, if_neg hmem]

theorem markAllTasksError_fst_frame (env : Env) (u msg : String) :
    ∀ (pairs : List (GenerationRow × Nat)) (db : Database),
      (markAllTasksError env u msg pairs db).1.batches = db.batches ∧
        (markAllTasksError env u msg pairs db).1.generations = db.generations ∧
          (markAllTasksError env u msg pairs db).1.nextId = db.nextId := by
  intro pairs
  induction pairs with
  | nil => intro db; exact ⟨rfl, rfl, rfl⟩
  | cons pr rest ih =>
    intro db
    obtain ⟨g, tid⟩ := pr
    rw [markAllTasksError]
    dsimp only
    obtain ⟨h1, h2, h3⟩ := ih (fallbackStep env u msg tid db).1
    rw [h1, h2, h3, fallbackStep_fst]
    exact ⟨rfl, rfl, rfl⟩

theorem markAllTasksError_asyncTasks (env : Env) (u msg : String) :
    ∀ (pairs : List (GenerationRow × Nat)) (db : Database),
      (pairs.map (·.2)).Nodup →
        (markAllTasksError env u msg pairs db).1.asyncTasks =
          db.asyncTasks.map (fallbackRowOutcome env u msg (pairs.map (·.2))) := by
  intro pairs
  induction pairs with
  | nil =>
    intro db _
    show db.asyncTasks = _
    exact (map_eq_self_of_eq_id _ _ fun r _ => fallbackRowOutcome_nil env u msg r).symm
  | cons pr rest ih =>
    intro db hnd
    obtain ⟨g, tid⟩ := pr
    simp only [List.map_cons, List.nodup_cons] at hnd
    obtain ⟨htid, hrest⟩ := hnd
    rw [markAllTasksError]
    dsimp only
    rw [ih (fallbackStep env u msg tid db).1 hrest, fallbackStep_fst]
    show (db.asyncTasks.map (stepRowF env u msg tid)).map
        (fallbackRowOutcome env u msg (rest.map (·.2))) =
      db.asyncTasks.map (fallbackRowOutcome env u msg (tid :: rest.map (·.2)))
    rw [List.map_map]
    exact (List.map_congr_left fun r _ =>
      fallbackRowOutcome_cons env u msg tid (rest.map (·.2)) r htid).symm

theorem markAllTasksError_writes_shape (env : Env) (u msg : String) :
    ∀ (pairs : List (GenerationRow × Nat)) (db : Database),
      ∀ w ∈ (markAllTasksError env u msg pairs db).2,
        w.taskId ∈ pairs.map (·.2) ∧ w.newStatus = .Error := by
  intro pairs
  induction pairs with
  | nil => intro db w hw; exact absurd hw (by simp [markAllTasksError])
  | cons pr rest ih =>
    intro db w hw
    obtain ⟨g, tid⟩ := pr
    rw [markAllTasksError] at hw
    dsimp only at hw
    rcases List.mem_append.mp hw with h | h
    · obtain ⟨h1, h2, _⟩ := fallbackStep_writes_mem env u msg tid db w h
      exact ⟨by rw [List.map_cons]; exact h1 ▸ List.mem_cons_self _ _, h2⟩
    · obtain ⟨h1, h2⟩ := ih (fallbackStep env u msg tid db).1 w h
      exact ⟨by rw [List.map_cons]; exact List.mem_cons_of_mem _ h1, h2⟩

theorem markAllTasksError_writes_pending (env : Env) (u msg : String) :
    ∀ (pairs : List (GenerationRow × Nat)) (db : Database),
      (pairs.map (·.2)).Nodup →
        (∀ pr ∈ pairs, ∀ r ∈ db.asyncTasks,
          r.id = pr.2 → r.userId = u → r.status = .Pending) →
          ∀ w ∈ (markAllTasksError env u msg pairs db).2, w.oldStatus = .Pending := by
  intro pairs
  induction pairs with
  | nil => intro db _ _ w hw; exact absurd hw (by simp [markAllTasksError])
  | cons pr rest ih =>
    intro db hnd hp w hw
    obtain ⟨g, tid⟩ := pr
    simp only [List.map_cons, List.nodup_cons] at hnd
    obtain ⟨htid, hrest⟩ := hnd
    rw [markAllTasksError] at hw
    dsimp only at hw
    rcases List.mem_append.mp hw with h | h
    · obtain ⟨_, _, r, hmem, hid, huid, hold⟩ := fallbackStep_writes_mem env u msg tid db w h
      rw [hold]
      exact hp (g, tid) (List.mem_cons_self _ _) r hmem hid huid
    · refine ih (fallbackStep env u msg tid db).1 hrest ?_ w h
      intro pr2 hpr2 r hr hid huid
      rw [fallbackStep_fst] at hr
      rcases List.mem_map.mp hr with ⟨r0, hr0, hr0eq⟩
      have hpr2tid : pr2.2 ≠ tid := by
        intro hc
        exact htid (hc ▸ List.mem_map.mpr ⟨pr2, hpr2, rfl⟩)
      have hr0id : r0.id ≠ tid := by
        intro hc
        rw [← hr0eq] at hid
        rw [(stepRowF_preserves env u msg tid r0).1, hc] at hid
        exact hpr2tid hid.symm
      rw [← hr0eq, stepRowF_ne env u msg tid r0 hr0id] at hid huid ⊢
      exact hp pr2 (List.mem_cons_of_mem _ hpr2) r0 hr0 hid huid

theorem fallbackStep_writes_cases (env : Env) (u msg : String) (tid : Nat)
    (db : Database) :
    (fallbackStep env u msg tid db).2 = [] ∨
      ∃ o, (fallbackStep env u msg tid db).2 =
        [{ taskId := tid, oldStatus := o, newStatus := .Error }] := by
  rw [fallbackStep]
  by_cases hu : env.updateOk tid = true
  · rw [if_pos hu, asyncTaskModelUpdate_writes]
    cases hf : findTask tid u db.asyncTasks with
    | none => exact Or.inl rfl
    | some t => exact Or.inr ⟨t.status, rfl⟩
  · rw [if_neg hu]; exact Or.inl rfl

theorem markAllTasksError_writes_nodup (env : Env) (u msg : String) :
    ∀ (pairs : List (GenerationRow × Nat)) (db : Database),
      (pairs.map (·.2)).Nodup →
        (((markAllTasksError env u msg pairs db).2).map (·.taskId)).Nodup := by
  intro pairs
  induction pairs with
  | nil => intro db _; simp [markAllTasksError]
  | cons pr rest ih =>
    intro db hnd
    obtain ⟨g, tid⟩ := pr
    simp only [List.map_cons, List.nodup_cons] at hnd
    obtain ⟨htid, hrest⟩ := hnd
    rw [markAllTasksError]
    dsimp only
    have hrecur := ih (fallbackStep env u msg tid db).1 hrest
    have hsub : ∀ w ∈ (markAllTasksError env u msg rest
        (fallbackStep env u msg tid db).1).2, w.taskId ∈ rest.map (·.2) :=
      fun w hw => (markAllTasksError_writes_shape env u msg rest
        (fallbackStep env u msg tid db).1 w hw).1
    rcases fallbackStep_writes_cases env u msg tid db with hc | ⟨o, hc⟩
    · rw [hc, List.nil_append]
      exact hrecur
    · rw [hc, List.singleton_append, List.map_cons, List.nodup_cons]
      refine ⟨?_, hrecur⟩
      intro hmem
      rcases List.mem_map.mp hmem with ⟨w, hw, hweq⟩
      have := hsub w hw
      rw [hweq] at this
      exact htid this

/-! Handler-level unfolding lemmas. -/

theorem dispatchRowOutcome_preserves (env : Env) (u : String) (tids : List Nat)
    (r : AsyncTaskRow) :
    (dispatchRowOutcome env u tids r).id = r.id ∧
      (dispatchRowOutcome env u tids r).userId = r.userId := by
  rw [dispatchRowOutcome]
  by_cases h : r.id ∈ tids
  · rw [if_pos h]; exact stepRowT_preserves env u r.id r
  · rw [if_neg h]; exact ⟨rfl, rfl⟩

theorem fallbackRowOutcome_preserves (env : Env) (u msg : String) (tids : List Nat)
    (r : AsyncTaskRow) :
    (fallbackRowOutcome env u msg tids r).id = r.id ∧
      (fallbackRowOutcome env u msg tids r).userId = r.userId := by
  rw [fallbackRowOutcome]
  by_cases h : r.id ∈ tids
  · rw [if_pos h]; exact stepRowF_preserves env u msg r.id r
  · rw [if_neg h]; exact ⟨rfl, rfl⟩

theorem findTask_taskRows (u : String) :
    ∀ (k t0 tid : Nat), t0 ≤ tid → tid < t0 + k →
      findTask tid u (taskRows u k t0) = some (mkTask u tid) := by
  intro k
  induction k with
  | zero => intro t0 tid h1 h2; omega
  | succ k ih =>
    intro t0 tid h1 h2
    rw [taskRows, findTask]
    by_cases hc : tid = t0
    · subst hc
      rw [if_pos ⟨rfl, rfl⟩]
    · rw [if_neg (by intro hmatch; exact hc (hmatch.1.symm))]
      exact ih (t0 + 1) tid (by omega) (by omega)

theorem txDb_asyncTasks (u : String) (input : CreateImageInput)
    (config : ImageParams) (db : Database) :
    (txDb u input config db).asyncTasks =
      db.asyncTasks ++ txTasks u input db.nextId := rfl

theorem txPairs_snd_bounds (u : String) (input : CreateImageInput) (n : Nat) :
    ∀ pr ∈ txPairs u input n,
      n + 1 + input.imageNum ≤ pr.2 ∧ pr.2 < n + 1 + 2 * input.imageNum := by
  intro pr hpr
  obtain ⟨_, h1, h2⟩ := mkPairs_mem _ _ pr hpr
  have hlen : (txNewGens u input n).length = input.imageNum :=
    newGenerationRows_length u n input.imageNum _ (n + 1)
  rw [hlen] at h2
  exact ⟨h1, by omega⟩

theorem txDb_pair_task_pending (u : String) (input : CreateImageInput)
    (config : ImageParams) (db : Database) (hwf : WellFormed db) :
    ∀ pr ∈ txPairs u input db.nextId, ∀ r ∈ (txDb u input config db).asyncTasks,
      r.id = pr.2 → r.userId = u → r.status = .Pending := by
  intro pr hpr r hr hid _
  rw [txDb_asyncTasks] at hr
  rcases List.mem_append.mp hr with h | h
  · exfalso
    have hlt := hwf.2.2 r h
    have hb := (txPairs_snd_bounds u input db.nextId pr hpr).1
    omega
  · exact (taskRows_mem u input.imageNum (db.nextId + 1 + input.imageNum) r h).2.1

theorem findTask_txDb (u : String) (input : CreateImageInput) (config : ImageParams)
    (db : Database) (hwf : WellFormed db) (tid : Nat)
    (h1 : db.nextId + 1 + input.imageNum ≤ tid)
    (h2 : tid < db.nextId + 1 + 2 * input.imageNum) :
    findTask tid u (txDb u input config db).asyncTasks = some (mkTask u tid) := by
  rw [txDb_asyncTasks, findTask_append_left_none]
  · exact findTask_taskRows u input.imageNum (db.nextId + 1 + input.imageNum) tid h1
      (by omega)
  · intro r hr hmatch
    have := hwf.2.2 r hr
    omega

theorem createImage_eq_error (env : Env) (u : String) (input : CreateImageInput)
    (db : Database) (e : String)
    (he : createImageTx env u input (configForDatabase env.resolveKey input.params) db =
      .error e) :
    createImage env u input db =
      { db := db, calls := [], writes := [], result := .error e } := by
  rw [createImage, he]

theorem createImage_eq_dispatch (env : Env) (u : String) (input : CreateImageInput)
    (db : Database) (hok : ∀ k, env.writeOk k = true) (hc : env.callerOk = true) :
    createImage env u input db =
      { db := (dispatchTasks env u input.provider input.model input.params
          (txPairs u input db.nextId)
          (txDb u input (configForDatabase env.resolveKey input.params) db)).1,
        calls := (dispatchTasks env u input.provider input.model input.params
          (txPairs u input db.nextId)
          (txDb u input (configForDatabase env.resolveKey input.params) db)).2.1,
        writes := (dispatchTasks env u input.provider input.model input.params
          (txPairs u input db.nextId)
          (txDb u input (configForDatabase env.resolveKey input.params) db)).2.2,
        result := .ok (okOutput u input
          (configForDatabase env.resolveKey input.params) db.nextId) } := by
  rw [createImage, createImageTx_ok env u input _ db hok]
  dsimp only
  rw [if_pos hc]
  rfl

theorem createImage_eq_fallback (env : Env) (u : String) (input : CreateImageInput)
    (db : Database) (hok : ∀ k, env.writeOk k = true) (hc : env.callerOk = false) :
    createImage env u input db =
      { db := (markAllTasksError env u
          (match env.callerErrMsg with
            | some m => m
            | none => "Failed to process async tasks")
          (txPairs u input db.nextId)
          (txDb u input (configForDatabase env.resolveKey input.params) db)).1,
        calls := [],
        writes := (markAllTasksError env u
          (match env.callerErrMsg with
            | some m => m
            | none => "Failed to process async tasks")
          (txPairs u input db.nextId)
          (txDb u input (configForDatabase env.resolveKey input.params) db)).2,
        result := .ok (okOutput u input
          (configForDatabase env.resolveKey input.params) db.nextId) } := by
  rw [createImage, createImageTx_ok env u input _ db hok]
  dsimp only
  rw [if_neg (by rw [hc]; exact Bool.noConfusion)]
  rfl

/-! Congruence: the transaction reads the oracle only through writeOk, and the
config only through resolveKey. -/

theorem attachTasks_writeOk_congr (env1 env2 : Env)
    (h : env1.writeOk = env2.writeOk) (u : String) :
    ∀ (gens : List GenerationRow) (opIdx : Nat) (db : Database),
      attachTasks env1 u gens opIdx db = attachTasks env2 u gens opIdx db := by
  intro gens
  induction gens with
  | nil => intro opIdx db; rfl
  | cons g rest ih =>
    intro opIdx db
    rw [attachTasks, attachTasks, ← h]
    by_cases hA : env1.writeOk opIdx = true
    · rw [if_pos hA, if_pos hA]
      by_cases hB : env1.writeOk (opIdx + 1) = true
      · rw [if_pos hB, if_pos hB]
        dsimp only
        rw [ih (opIdx + 2)]
      · rw [if_neg hB, if_neg hB]
    · rw [if_neg hA, if_neg hA]

theorem createImageTx_writeOk_congr (env1 env2 : Env)
    (h : env1.writeOk = env2.writeOk) (u : String) (input : CreateImageInput)
    (config : ImageParams) (db : Database) :
    createImageTx env1 u input config db = createImageTx env2 u input config db := by
  rw [createImageTx, createImageTx, ← h]
  by_cases h0 : env1.writeOk 0 = true
  · rw [if_pos h0, if_pos h0]
    by_cases h1 : env1.writeOk 1 = true
    · rw [if_pos h1, if_pos h1]
      dsimp only
      rw [attachTasks_writeOk_congr env1 env2 h u]
    · rw [if_neg h1, if_neg h1]
  · rw [if_neg h0, if_neg h0]

theorem createImage_result_congr (env1 env2 : Env)
    (hw : env1.writeOk = env2.writeOk) (hr : env1.resolveKey = env2.resolveKey)
    (u : String) (input : CreateImageInput) (db : Database) :
    (createImage env1 u input db).result = (createImage env2 u input db).result := by
  rw [createImage, createImage, hr,
    createImageTx_writeOk_congr env1 env2 hw u input
      (configForDatabase env2.resolveKey input.params) db]
  cases createImageTx env2 u input (configForDatabase env2.resolveKey input.params) db with
  | error e => rfl
  | ok triple => rfl

/-! The claims. -/

/-- C1: for every valid create-image input with imageNum = N over a
well-formed store, a successful transactional write commits exactly one new
batch row, N new generation rows and N new Pending async-task rows, each
generation referencing a distinct task of the same transaction, with every
task reference already present in the committed state. -/
theorem claimC1 (env : Env) (u : String) (input : CreateImageInput)
    (db : Database) (hwf : WellFormed db) (hok : ∀ k, env.writeOk k = true) :
    ∃ db1 batch pairs,
      createImageTx env u input (configForDatabase env.resolveKey input.params) db =
        .ok (db1, batch, pairs) ∧
      db1.batches = db.batches ++ [batch] ∧
      db1.generations = db.generations ++ txLinked u input db.nextId ∧
      db1.asyncTasks = db.asyncTasks ++ txTasks u input db.nextId ∧
      (txLinked u input db.nextId).length = input.imageNum ∧
      (txTasks u input db.nextId).length = input.imageNum ∧
      (∀ t ∈ txTasks u input db.nextId, t.status = .Pending) ∧
      (∀ g ∈ txLinked u input db.nextId, g.generationBatchId = batch.id) ∧
      (txLinked u input db.nextId).map (·.asyncTaskId) =
        (txTasks u input db.nextId).map (fun t => some t.id) ∧
      ((txTasks u input db.nextId).map (·.id)).Nodup := by
  refine ⟨txDb u input (configForDatabase env.resolveKey input.params) db,
    mkBatchRow u input (configForDatabase env.resolveKey input.params) db.nextId,
    txPairs u input db.nextId,
    createImageTx_ok env u input _ db hok, rfl,
    txDb_generations u input _ db hwf, rfl,
    linkedGenerationRows_length u db.nextId input.imageNum _ _ _,
    taskRows_length u input.imageNum _,
    fun t ht => (taskRows_mem u input.imageNum _ t ht).2.1,
    fun g hg => ?_,
    linkedGenerationRows_map_taskId u db.nextId input.imageNum _ _ _,
    taskRows_map_id_nodup u input.imageNum _⟩
  exact (linkedGenerationRows_mem u db.nextId input.imageNum _ _ _ g hg).2.1

theorem claimC1_witness :
    WellFormed dbW ∧ (∀ k, envW.writeOk k = true) ∧
      (∃ db1 batch pairs,
        createImageTx envW "alice" inpW
            (configForDatabase envW.resolveKey inpW.params) dbW =
          .ok (db1, batch, pairs) ∧
        db1.batches = dbW.batches ++ [batch] ∧
        db1.generations = dbW.generations ++ txLinked "alice" inpW dbW.nextId ∧
        db1.asyncTasks = dbW.asyncTasks ++ txTasks "alice" inpW dbW.nextId ∧
        (txLinked "alice" inpW dbW.nextId).length = inpW.imageNum ∧
        (txTasks "alice" inpW dbW.nextId).length = inpW.imageNum ∧
        (∀ t ∈ txTasks "alice" inpW dbW.nextId, t.status = .Pending) ∧
        (∀ g ∈ txLinked "alice" inpW dbW.nextId, g.generationBatchId = batch.id) ∧
        (txLinked "alice" inpW dbW.nextId).map (·.asyncTaskId) =
          (txTasks "alice" inpW dbW.nextId).map (fun t => some t.id) ∧
        ((txTasks "alice" inpW dbW.nextId).map (·.id)).Nodup) :=
  ⟨by decide, fun _ => rfl,
    claimC1 envW "alice" inpW dbW (by decide) (fun _ => rfl)⟩

/-- C2: if any insert inside the transactional write fails, the store is
unchanged afterward (zero batch, generation or task rows visible), no remote
call is issued, and the failure propagates to the caller as an error. -/
theorem claimC2 (env : Env) (u : String) (input : CreateImageInput)
    (db : Database)
    (hfail : ∃ j, j < 2 + 2 * input.imageNum ∧ env.writeOk j = false) :
    ∃ e, createImage env u input db =
      { db := db, calls := [], writes := [], result := .error e } := by
  obtain ⟨e, he⟩ := createImageTx_fail env u input
    (configForDatabase env.resolveKey input.params) db hfail
  exact ⟨e, createImage_eq_error env u input db e he⟩

theorem claimC2_witness :
    (∃ j, j < 2 + 2 * inpW.imageNum ∧ envW2.writeOk j = false) ∧
      (∃ e, createImage envW2 "alice" inpW dbW =
        { db := dbW, calls := [], writes := [], result := .error e }) :=
  ⟨⟨3, by decide, by decide⟩,
    claimC2 envW2 "alice" inpW dbW ⟨3, by decide, by decide⟩⟩

theorem createImage_findTask_dispatch (env : Env) (u : String)
    (input : CreateImageInput) (db : Database) (hwf : WellFormed db)
    (hok : ∀ k, env.writeOk k = true) (hc : env.callerOk = true) (tid : Nat)
    (h1 : db.nextId + 1 + input.imageNum ≤ tid)
    (h2 : tid < db.nextId + 1 + 2 * input.imageNum) :
    findTask tid u (createImage env u input db).db.asyncTasks =
      some (dispatchRowOutcome env u ((txPairs u input db.nextId).map (·.2))
        (mkTask u tid)) := by
  rw [createImage_eq_dispatch env u input db hok hc]
  dsimp only
  rw [dispatchTasks_asyncTasks env u input.provider input.model input.params
    (txPairs u input db.nextId)
    (txDb u input (configForDatabase env.resolveKey input.params) db)
    (mkPairs_map_snd_nodup _ _)]
  rw [findTask_map tid u _ (fun r => dispatchRowOutcome_preserves env u _ r)]
  rw [findTask_txDb u input _ db hwf tid h1 h2]
  rfl

theorem createImage_findTask_fallback (env : Env) (u : String)
    (input : CreateImageInput) (db : Database) (hwf : WellFormed db)
    (hok : ∀ k, env.writeOk k = true) (hc : env.callerOk = false) (tid : Nat)
    (h1 : db.nextId + 1 + input.imageNum ≤ tid)
    (h2 : tid < db.nextId + 1 + 2 * input.imageNum) :
    findTask tid u (createImage env u input db).db.asyncTasks =
      some (fallbackRowOutcome env u
        (match env.callerErrMsg with
          | some m => m
          | none => "Failed to process async tasks")
        ((txPairs u input db.nextId).map (·.2)) (mkTask u tid)) := by
  rw [createImage_eq_fallback env u input db hok hc]
  dsimp only
  rw [markAllTasksError_asyncTasks env u _ (txPairs u input db.nextId)
    (txDb u input (configForDatabase env.resolveKey input.params) db)
    (mkPairs_map_snd_nodup _ _)]
  rw [findTask_map tid u _ (fun r => fallbackRowOutcome_preserves env u _ _ r)]
  rw [findTask_txDb u input _ db hwf tid h1 h2]
  rfl

/-- C3: for every task whose dispatched remote call rejects, the task row is
updated to status Error with a structured error of kind server error whose
message is the rejection message, or the fixed fallback string when the
rejection carries no message; when that status update itself fails, the task
row is left untouched (the failure is only logged), and neither the committed
batch and generation rows nor any task whose call resolved are affected. -/
theorem claimC3 (env : Env) (u : String) (input : CreateImageInput)
    (db : Database) (hwf : WellFormed db) (hok : ∀ k, env.writeOk k = true)
    (hcaller : env.callerOk = true) (pr : GenerationRow × Nat)
    (hpr : pr ∈ txPairs u input db.nextId) (msg : Option String)
    (hrej : env.callRejects pr.2 = some msg) :
    (env.updateOk pr.2 = true →
      findTask pr.2 u (createImage env u input db).db.asyncTasks =
        some (erroredTask u pr.2 (jsOrString msg "Unknown error"))) ∧
    (env.updateOk pr.2 = false →
      findTask pr.2 u (createImage env u input db).db.asyncTasks =
        some (mkTask u pr.2)) ∧
    (createImage env u input db).db.batches =
      db.batches ++ [mkBatchRow u input
        (configForDatabase env.resolveKey input.params) db.nextId] ∧
    (createImage env u input db).db.generations =
      db.generations ++ txLinked u input db.nextId ∧
    (∀ pr2 ∈ txPairs u input db.nextId, env.callRejects pr2.2 = none →
      findTask pr2.2 u (createImage env u input db).db.asyncTasks =
        some (mkTask u pr2.2)) := by
  obtain ⟨hb1, hb2⟩ := txPairs_snd_bounds u input db.nextId pr hpr
  have hfind := createImage_findTask_dispatch env u input db hwf hok hcaller
    pr.2 hb1 hb2
  have hmem : pr.2 ∈ (txPairs u input db.nextId).map (·.2) :=
    List.mem_map.mpr ⟨pr, hpr, rfl⟩
  refine ⟨?_, ?_, ?_, ?_, ?_⟩
  · intro hupd
    rw [hfind]
    congr 1
    rw [dispatchRowOutcome]
    show (if pr.2 ∈ (txPairs u input db.nextId).map (·.2) then
        stepRowT env u pr.2 (mkTask u pr.2) else mkTask u pr.2) =
      erroredTask u pr.2 (jsOrString msg "Unknown error")
    rw [if_pos hmem]
    rw [stepRowT_some_ok env u pr.2 (mkTask u pr.2) msg hrej hupd]
    rw [updRow, if_pos ⟨rfl, rfl⟩]
    rfl
  · intro hupd
    rw [hfind]
    congr 1
    rw [dispatchRowOutcome]
    by_cases hm : (mkTask u pr.2).id ∈ (txPairs u input db.nextId).map (·.2)
    · rw [if_pos hm]
      exact stepRowT_some_fail env u _ (mkTask u pr.2) msg hrej hupd
    · rw [if_neg hm]
  · rw [createImage_eq_dispatch env u input db hok hcaller]
    dsimp only
    exact (dispatchTasks_fst_frame env u input.provider input.model input.params
      (txPairs u input db.nextId) _).1
  · rw [createImage_eq_dispatch env u input db hok hcaller]
    dsimp only
    exact ((dispatchTasks_fst_frame env u input.provider input.model input.params
      (txPairs u input db.nextId) _).2.1).trans
      (txDb_generations u input _ db hwf)
  · intro pr2 hpr2 hnone
    obtain ⟨hc1, hc2⟩ := txPairs_snd_bounds u input db.nextId pr2 hpr2
    have hfind2 := createImage_findTask_dispatch env u input db hwf hok hcaller
      pr2.2 hc1 hc2
    rw [hfind2]
    congr 1
    rw [dispatchRowOutcome]
    by_cases hm : (mkTask u pr2.2).id ∈ (txPairs u input db.nextId).map (·.2)
    · rw [if_pos hm]
      exact stepRowT_none env u _ (mkTask u pr2.2) hnone
    · rw [if_neg hm]

theorem claimC3_witness :
    WellFormed dbW ∧ (∀ k, envW.writeOk k = true) ∧ envW.callerOk = true ∧
    ({ id := 2, userId := "alice", generationBatchId := 0, seed := some 1, asyncTaskId := none }, 5) ∈ txPairs "alice" inpW dbW.nextId ∧
    envW.callRejects 5 = some (some "boom") ∧
    ((envW.updateOk 5 = true →
      findTask 5 "alice" (createImage envW "alice" inpW dbW).db.asyncTasks =
        some (erroredTask "alice" 5 (jsOrString (some "boom") "Unknown error"))) ∧
    (envW.updateOk 5 = false →
      findTask 5 "alice" (createImage envW "alice" inpW dbW).db.asyncTasks =
        some (mkTask "alice" 5)) ∧
    (createImage envW "alice" inpW dbW).db.batches =
      dbW.batches ++ [mkBatchRow "alice" inpW
        (configForDatabase envW.resolveKey inpW.params) dbW.nextId] ∧
    (createImage envW "alice" inpW dbW).db.generations =
      dbW.generations ++ txLinked "alice" inpW dbW.nextId ∧
    (∀ pr2 ∈ txPairs "alice" inpW dbW.nextId, envW.callRejects pr2.2 = none →
      findTask pr2.2 "alice" (createImage envW "alice" inpW dbW).db.asyncTasks =
        some (mkTask "alice" pr2.2))) :=
  ⟨by decide, fun _ => rfl, rfl, by decide, rfl,
    claimC3 envW "alice" inpW dbW (by decide) (fun _ => rfl) rfl
      ({ id := 2, userId := "alice", generationBatchId := 0, seed := some 1, asyncTaskId := none }, 5)
      (by decide) (some "boom") rfl⟩

/-- C4: if the dispatch step throws before issuing any per-task remote call,
no remote call is issued at all, the handler still returns success, and every
task of the batch whose best-effort fallback update succeeds ends in status
Error (with the server-error message derived from the thrown value), while a
task whose fallback update fails is left untouched, the failure only logged. -/
theorem claimC4 (env : Env) (u : String) (input : CreateImageInput)
    (db : Database) (hwf : WellFormed db) (hok : ∀ k, env.writeOk k = true)
    (hcaller : env.callerOk = false) :
    (createImage env u input db).calls = [] ∧
    (createImage env u input db).result = .ok (okOutput u input
      (configForDatabase env.resolveKey input.params) db.nextId) ∧
    (∀ pr ∈ txPairs u input db.nextId,
      (env.updateOk pr.2 = true →
        findTask pr.2 u (createImage env u input db).db.asyncTasks =
          some (erroredTask u pr.2
            (match env.callerErrMsg with
              | some m => m
              | none => "Failed to process async tasks"))) ∧
      (env.updateOk pr.2 = false →
        findTask pr.2 u (createImage env u input db).db.asyncTasks =
          some (mkTask u pr.2))) := by
  refine ⟨?_, ?_, ?_⟩
  · rw [createImage_eq_fallback env u input db hok hcaller]
  · rw [createImage_eq_fallback env u input db hok hcaller]
  · intro pr hpr
    obtain ⟨hb1, hb2⟩ := txPairs_snd_bounds u input db.nextId pr hpr
    have hfind := createImage_findTask_fallback env u input db hwf hok hcaller
      pr.2 hb1 hb2
    have hmem : pr.2 ∈ (txPairs u input db.nextId).map (·.2) :=
      List.mem_map.mpr ⟨pr, hpr, rfl⟩
    constructor
    · intro hupd
      rw [hfind]
      congr 1
      rw [fallbackRowOutcome]
      show (if pr.2 ∈ (txPairs u input db.nextId).map (·.2) then
          stepRowF env u
            (match env.callerErrMsg with
              | some m => m
              | none => "Failed to process async tasks") pr.2 (mkTask u pr.2)
        else mkTask u pr.2) = _
      rw [if_pos hmem]
      rw [stepRowF_ok env u _ pr.2 (mkTask u pr.2) hupd]
      rw [updRow, if_pos ⟨rfl, rfl⟩]
      rfl
    · intro hupd
      rw [hfind]
      congr 1
      rw [fallbackRowOutcome]
      by_cases hm : (mkTask u pr.2).id ∈ (txPairs u input db.nextId).map (·.2)
      · rw [if_pos hm]
        exact stepRowF_fail env u _ _ (mkTask u pr.2) hupd
      · rw [if_neg hm]

theorem claimC4_witness :
    WellFormed dbW ∧ (∀ k, envW4.writeOk k = true) ∧ envW4.callerOk = false ∧
    ((createImage envW4 "alice" inpW dbW).calls = [] ∧
    (createImage envW4 "alice" inpW dbW).result = .ok (okOutput "alice" inpW
      (configForDatabase envW4.resolveKey inpW.params) dbW.nextId) ∧
    (∀ pr ∈ txPairs "alice" inpW dbW.nextId,
      (envW4.updateOk pr.2 = true →
        findTask pr.2 "alice" (createImage envW4 "alice" inpW dbW).db.asyncTasks =
          some (erroredTask "alice" pr.2 "no caller")) ∧
      (envW4.updateOk pr.2 = false →
        findTask pr.2 "alice" (createImage envW4 "alice" inpW dbW).db.asyncTasks =
          some (mkTask "alice" pr.2)))) :=
  ⟨by decide, fun _ => rfl, rfl,
    claimC4 envW4 "alice" inpW dbW (by decide) (fun _ => rfl) rfl⟩

/-- C5: once the transactional write commits, the handler returns success
carrying the batch and the generation rows, and this returned value is
identical for every possible outcome of the caller construction, of each
per-task remote call, and of each status update: background failures never
re-throw into the original request. -/
theorem claimC5 (env1 env2 : Env) (u : String) (input : CreateImageInput)
    (db : Database) (hw : env1.writeOk = env2.writeOk)
    (hr : env1.resolveKey = env2.resolveKey)
    (hok : ∀ k, env1.writeOk k = true) :
    (createImage env1 u input db).result = .ok (okOutput u input
      (configForDatabase env1.resolveKey input.params) db.nextId) ∧
    (createImage env1 u input db).result = (createImage env2 u input db).result := by
  constructor
  · by_cases hc : env1.callerOk = true
    · rw [createImage_eq_dispatch env1 u input db hok hc]
    · rw [createImage_eq_fallback env1 u input db hok (Bool.not_eq_true _ |>.mp hc)]
  · exact createImage_result_congr env1 env2 hw hr u input db

theorem claimC5_witness :
    envW.writeOk = envW5.writeOk ∧ envW.resolveKey = envW5.resolveKey ∧
    (∀ k, envW.writeOk k = true) ∧
    ((createImage envW "alice" inpW dbW).result = .ok (okOutput "alice" inpW
      (configForDatabase envW.resolveKey inpW.params) dbW.nextId) ∧
    (createImage envW "alice" inpW dbW).result =
      (createImage envW5 "alice" inpW dbW).result) :=
  ⟨rfl, rfl, fun _ => rfl,
    claimC5 envW envW5 "alice" inpW dbW rfl rfl (fun _ => rfl)⟩

/-- C6: every async task is created Pending inside the transaction, every
status write applied anywhere in the run turns a Pending task into Error, and
no task is written twice: within this subsystem, task transitions are
monotonic and terminal, with no Success-to-Error or Error-to-Success
transition and no change to an already-terminal task. -/
theorem claimC6 (env : Env) (u : String) (input : CreateImageInput)
    (db : Database) (hwf : WellFormed db) (hok : ∀ k, env.writeOk k = true) :
    (∀ t ∈ txTasks u input db.nextId, t.status = .Pending) ∧
    (∀ w ∈ (createImage env u input db).writes,
      w.oldStatus = .Pending ∧ w.newStatus = .Error) ∧
    (((createImage env u input db).writes).map (·.taskId)).Nodup := by
  refine ⟨fun t ht => (taskRows_mem u input.imageNum _ t ht).2.1, ?_, ?_⟩
  · intro w hw
    by_cases hc : env.callerOk = true
    · rw [createImage_eq_dispatch env u input db hok hc] at hw
      dsimp only at hw
      exact ⟨dispatchTasks_writes_pending env u input.provider input.model
          input.params (txPairs u input db.nextId) _ (mkPairs_map_snd_nodup _ _)
          (txDb_pair_task_pending u input _ db hwf) w hw,
        (dispatchTasks_writes_shape env u input.provider input.model input.params
          (txPairs u input db.nextId) _ w hw).2⟩
    · rw [createImage_eq_fallback env u input db hok
        (Bool.not_eq_true _ |>.mp hc)] at hw
      dsimp only at hw
      exact ⟨markAllTasksError_writes_pending env u _ (txPairs u input db.nextId) _
          (mkPairs_map_snd_nodup _ _) (txDb_pair_task_pending u input _ db hwf) w hw,
        (markAllTasksError_writes_shape env u _ (txPairs u input db.nextId) _ w hw).2⟩
  · by_cases hc : env.callerOk = true
    · rw [createImage_eq_dispatch env u input db hok hc]
      dsimp only
      exact dispatchTasks_writes_nodup env u input.provider input.model
        input.params (txPairs u input db.nextId) _ (mkPairs_map_snd_nodup _ _)
    · rw [createImage_eq_fallback env u input db hok (Bool.not_eq_true _ |>.mp hc)]
      dsimp only
      exact markAllTasksError_writes_nodup env u _ (txPairs u input db.nextId) _
        (mkPairs_map_snd_nodup _ _)

theorem claimC6_witness :
    WellFormed dbW ∧ (∀ k, envW.writeOk k = true) ∧
    ((∀ t ∈ txTasks "alice" inpW dbW.nextId, t.status = .Pending) ∧
    (∀ w ∈ (createImage envW "alice" inpW dbW).writes,
      w.oldStatus = .Pending ∧ w.newStatus = .Error) ∧
    (((createImage envW "alice" inpW dbW).writes).map (·.taskId)).Nodup) :=
  ⟨by decide, fun _ => rfl,
    claimC6 envW "alice" inpW dbW (by decide) (fun _ => rfl)⟩

theorem txLinked_map_seed (u : String) (input : CreateImageInput) (n : Nat) :
    (txLinked u input n).map (·.seed) =
      seedsForBatch input.params input.imageNum := by
  show (linkedGenerationRows u n input.imageNum
    (seedsForBatch input.params input.imageNum) (n + 1)
    (n + 1 + input.imageNum)).map (·.seed) = _
  rw [linkedGenerationRows_map_seed u n input.imageNum _ (n + 1)
    (n + 1 + input.imageNum) (by rw [seedsForBatch_length])]
  exact List.take_of_length_le (by rw [seedsForBatch_length])

theorem generateUniqueSeeds_nodup (n : Nat) : (generateUniqueSeeds n).Nodup := by
  unfold generateUniqueSeeds
  exact (List.nodup_range n).map (fun a b h => Int.ofNat.inj h)

/-- C7: when the seed key is present in params, imageNum unique seeds are
generated up front and assigned one per generation in creation order, making
the seeds of one batch pairwise distinct; when the seed key is absent, every
generation of the batch gets a null seed. The rows described are exactly the
generation rows the run leaves in the store. -/
theorem claimC7 (env : Env) (u : String) (input : CreateImageInput)
    (db : Database) (hwf : WellFormed db) (hok : ∀ k, env.writeOk k = true) :
    (input.params.seed.isSome →
      (txLinked u input db.nextId).map (·.seed) =
        (generateUniqueSeeds input.imageNum).map some ∧
      ((txLinked u input db.nextId).map (·.seed)).Nodup) ∧
    (input.params.seed = none →
      ∀ g ∈ txLinked u input db.nextId, g.seed = none) ∧
    (createImage env u input db).db.generations =
      db.generations ++ txLinked u input db.nextId := by
  refine ⟨?_, ?_, ?_⟩
  · intro hs
    have hmap : (txLinked u input db.nextId).map (·.seed) =
        (generateUniqueSeeds input.imageNum).map some := by
      rw [txLinked_map_seed, seedsForBatch, if_pos hs]
    exact ⟨hmap, by
      rw [hmap]
      exact (generateUniqueSeeds_nodup input.imageNum).map
        (Option.some_injective Int)⟩
  · intro hs g hg
    have hmap : (txLinked u input db.nextId).map (·.seed) =
        (List.range input.imageNum).map (fun _ => none) := by
      rw [txLinked_map_seed, seedsForBatch, if_neg (by rw [hs]; simp)]
    have hmem : g.seed ∈ (txLinked u input db.nextId).map (·.seed) :=
      List.mem_map_of_mem _ hg
    rw [hmap] at hmem
    rcases List.mem_map.mp hmem with ⟨i, _, hi⟩
    exact hi.symm
  · by_cases hc : env.callerOk = true
    · rw [createImage_eq_dispatch env u input db hok hc]
      dsimp only
      exact ((dispatchTasks_fst_frame env u input.provider input.model
        input.params (txPairs u input db.nextId) _).2.1).trans
        (txDb_generations u input _ db hwf)
    · rw [createImage_eq_fallback env u input db hok (Bool.not_eq_true _ |>.mp hc)]
      dsimp only
      exact ((markAllTasksError_fst_frame env u _
        (txPairs u input db.nextId) _).2.1).trans
        (txDb_generations u input _ db hwf)

theorem claimC7_witness :
    WellFormed dbW ∧ (∀ k, envW.writeOk k = true) ∧
    ((inpW.params.seed.isSome →
      (txLinked "alice" inpW dbW.nextId).map (·.seed) =
        (generateUniqueSeeds inpW.imageNum).map some ∧
      ((txLinked "alice" inpW dbW.nextId).map (·.seed)).Nodup) ∧
    (inpW.params.seed = none →
      ∀ g ∈ txLinked "alice" inpW dbW.nextId, g.seed = none) ∧
    (createImage envW "alice" inpW dbW).db.generations =
      dbW.generations ++ txLinked "alice" inpW dbW.nextId) :=
  ⟨by decide, fun _ => rfl,
    claimC7 envW "alice" inpW dbW (by decide) (fun _ => rfl)⟩

/-- C8: when params.imageUrls is a nonempty list and the storage-key resolver
succeeds on every URL, the committed batch stores the resolved keys in its
config instead of the URLs; when resolving any URL throws, the committed
batch keeps the original unmodified params as its config and the request
still succeeds end-to-end. -/
theorem claimC8 (env : Env) (u : String) (input : CreateImageInput)
    (db : Database) (hok : ∀ k, env.writeOk k = true) (urls : List String)
    (hurls : input.params.imageUrls = some urls) (hne : urls ≠ []) :
    (∀ keys, resolveAll env.resolveKey urls = .ok keys →
      (createImage env u input db).db.batches = db.batches ++
        [mkBatchRow u input { input.params with imageUrls := some keys } db.nextId]) ∧
    (∀ e, resolveAll env.resolveKey urls = .error e →
      (createImage env u input db).db.batches = db.batches ++
        [mkBatchRow u input input.params db.nextId] ∧
      (createImage env u input db).result =
        .ok (okOutput u input input.params db.nextId)) := by
  have hie : urls.isEmpty = false := by
    cases urls with
    | nil => exact absurd rfl hne
    | cons a l => rfl
  have hbatches : ∀ config : ImageParams,
      configForDatabase env.resolveKey input.params = config →
      (createImage env u input db).db.batches = db.batches ++
        [mkBatchRow u input config db.nextId] := by
    intro config hconf
    by_cases hc : env.callerOk = true
    · rw [createImage_eq_dispatch env u input db hok hc]
      dsimp only
      rw [(dispatchTasks_fst_frame env u input.provider input.model input.params
        (txPairs u input db.nextId)
        (txDb u input (configForDatabase env.resolveKey input.params) db)).1]
      show db.batches ++ [mkBatchRow u input
        (configForDatabase env.resolveKey input.params) db.nextId] = _
      rw [hconf]
    · rw [createImage_eq_fallback env u input db hok (Bool.not_eq_true _ |>.mp hc)]
      dsimp only
      rw [(markAllTasksError_fst_frame env u _ (txPairs u input db.nextId)
        (txDb u input (configForDatabase env.resolveKey input.params) db)).1]
      show db.batches ++ [mkBatchRow u input
        (configForDatabase env.resolveKey input.params) db.nextId] = _
      rw [hconf]
  constructor
  · intro keys hkeys
    refine hbatches _ ?_
    rw [configForDatabase, hurls]
    dsimp only
    rw [if_neg (by rw [hie]; exact Bool.noConfusion), hkeys]
  · intro e he
    have hconf : configForDatabase env.resolveKey input.params = input.params := by
      rw [configForDatabase, hurls]
      dsimp only
      rw [if_neg (by rw [hie]; exact Bool.noConfusion), he]
    refine ⟨hbatches _ hconf, ?_⟩
    by_cases hc : env.callerOk = true
    · rw [createImage_eq_dispatch env u input db hok hc]
      dsimp only
      rw [hconf]
    · rw [createImage_eq_fallback env u input db hok (Bool.not_eq_true _ |>.mp hc)]
      dsimp only
      rw [hconf]

theorem claimC8_witness :
    (∀ k, envW8.writeOk k = true) ∧ inpW.params.imageUrls = some ["u1"] ∧
    ["u1"] ≠ ([] : List String) ∧
    ((∀ keys, resolveAll envW8.resolveKey ["u1"] = .ok keys →
      (createImage envW8 "alice" inpW dbW).db.batches = dbW.batches ++
        [mkBatchRow "alice" inpW
          { inpW.params with imageUrls := some keys } dbW.nextId]) ∧
    (∀ e, resolveAll envW8.resolveKey ["u1"] = .error e →
      (createImage envW8 "alice" inpW dbW).db.batches = dbW.batches ++
        [mkBatchRow "alice" inpW inpW.params dbW.nextId] ∧
      (createImage envW8 "alice" inpW dbW).result =
        .ok (okOutput "alice" inpW inpW.params dbW.nextId))) :=
  ⟨fun _ => rfl, rfl, by decide,
    claimC8 envW8 "alice" inpW dbW (fun _ => rfl) ["u1"] rfl (by decide)⟩

/-- C9: for every (generation, task) pair created in the transaction the
dispatcher issues exactly one remote create-image call, in creation order,
carrying that pair's task id and generation id, the provider, the model, and
the original non-rewritten params: the URL rewrite never reaches the
dispatched payload. -/
theorem claimC9 (env : Env) (u : String) (input : CreateImageInput)
    (db : Database) (hok : ∀ k, env.writeOk k = true)
    (hcaller : env.callerOk = true) :
    (createImage env u input db).calls =
      (txPairs u input db.nextId).map
        (mkCall input.provider input.model input.params) ∧
    (∀ c ∈ (createImage env u input db).calls, c.params = input.params) ∧
    ((createImage env u input db).calls).length = input.imageNum := by
  have hcalls : (createImage env u input db).calls =
      (txPairs u input db.nextId).map
        (mkCall input.provider input.model input.params) := by
    rw [createImage_eq_dispatch env u input db hok hcaller]
    dsimp only
    rw [dispatchTasks_calls]
  refine ⟨hcalls, ?_, ?_⟩
  · intro c hc
    rw [hcalls] at hc
    rcases List.mem_map.mp hc with ⟨pr, _, hpr⟩
    rw [← hpr]
    rfl
  · rw [hcalls, List.length_map]
    show (mkPairs (txNewGens u input db.nextId) _).length = _
    rw [mkPairs_length]
    exact newGenerationRows_length u db.nextId input.imageNum _ _

theorem claimC9_witness :
    (∀ k, envW.writeOk k = true) ∧ envW.callerOk = true ∧
    ((createImage envW "alice" inpW dbW).calls =
      (txPairs "alice" inpW dbW.nextId).map
        (mkCall inpW.provider inpW.model inpW.params) ∧
    (∀ c ∈ (createImage envW "alice" inpW dbW).calls, c.params = inpW.params) ∧
    ((createImage envW "alice" inpW dbW).calls).length = inpW.imageNum) :=
  ⟨fun _ => rfl, rfl,
    claimC9 envW "alice" inpW dbW (fun _ => rfl) rfl⟩

/-- C10: whether fresh seeds are generated is decided solely by the presence
of the seed key in params: a params object whose seed is explicitly null
still triggers generation of imageNum unique seeds, and the committed
generation seeds are the same fixed fresh-seed list whatever value the seed
key carries, so a caller-supplied seed value never determines any
generation's seed. -/
theorem claimC10 (env : Env) (u : String) (input : CreateImageInput)
    (db : Database) (hwf : WellFormed db) (hok : ∀ k, env.writeOk k = true)
    (v : Option Int) (hs : input.params.seed = some v) :
    (txLinked u input db.nextId).map (·.seed) =
      (generateUniqueSeeds input.imageNum).map some ∧
    ((txLinked u input db.nextId).map (·.seed)).Nodup ∧
    (createImage env u input db).db.generations =
      db.generations ++ txLinked u input db.nextId := by
  have hmap : (txLinked u input db.nextId).map (·.seed) =
      (generateUniqueSeeds input.imageNum).map some := by
    rw [txLinked_map_seed, seedsForBatch, if_pos (by rw [hs]; rfl)]
  refine ⟨hmap, ?_, ?_⟩
  · rw [hmap]
    exact (generateUniqueSeeds_nodup input.imageNum).map (Option.some_injective Int)
  · by_cases hc : env.callerOk = true
    · rw [createImage_eq_dispatch env u input db hok hc]
      dsimp only
      exact ((dispatchTasks_fst_frame env u input.provider input.model
        input.params (txPairs u input db.nextId) _).2.1).trans
        (txDb_generations u input _ db hwf)
    · rw [createImage_eq_fallback env u input db hok (Bool.not_eq_true _ |>.mp hc)]
      dsimp only
      exact ((markAllTasksError_fst_frame env u _
        (txPairs u input db.nextId) _).2.1).trans
        (txDb_generations u input _ db hwf)

theorem claimC10_witness :
    WellFormed dbW ∧ (∀ k, envW.writeOk k = true) ∧
    inpW.params.seed = some none ∧
    ((txLinked "alice" inpW dbW.nextId).map (·.seed) =
      (generateUniqueSeeds inpW.imageNum).map some ∧
    ((txLinked "alice" inpW dbW.nextId).map (·.seed)).Nodup ∧
    (createImage envW "alice" inpW dbW).db.generations =
      dbW.generations ++ txLinked "alice" inpW dbW.nextId) :=
  ⟨by decide, fun _ => rfl, rfl,
    claimC10 envW "alice" inpW dbW (by decide) (fun _ => rfl) none rfl⟩
